import Mathlib

/-!
Verification development for svg_gen.py (svgheadergen).

The file shallowly embeds the components of the generator that the
specification claims talk about: the gradient model (GradientStop and
its construction-time validation), the custom gradient parser, the
grid renderer adapter (engine selection, timeout policy and output
post-processing), the path synthesizer (grid_to_paths), and the
text-mode SVG rewriter of render_text_svg.  External subprocess calls
are modelled by an explicit environment mapping an argument vector to
an outcome, and every function additionally reports the list of
invocations it performed, so temporal claims about validation versus
invocation order can be stated.

Python built-ins used by the source (str.strip, str.split, str.rsplit,
str.ljust, str.rstrip, int(), re.match, re.search, re.sub) are embedded
by executable Lean functions on lists of characters that reproduce the
CPython behaviour on the inputs the program handles; in particular the
regex dollar anchor of re.match also matches just before one final
newline, which the embedding reproduces faithfully.
-/

namespace SvgGen

/-! ## Character helpers -/

/-- Hex digit test, mirroring the regex character class `[0-9a-fA-F]`. -/
def isHexDig (c : Char) : Bool :=
  c.isDigit || ('a' ≤ c && c ≤ 'f') || ('A' ≤ c && c ≤ 'F')

/-- Characters allowed by FONT_NAME_PATTERN's class `[a-zA-Z0-9_-]`. -/
def isFontChar (c : Char) : Bool :=
  ('a' ≤ c && c ≤ 'z') || ('A' ≤ c && c ≤ 'Z') || c.isDigit || c = '_' || c = '-'

/-- ASCII whitespace as stripped by Python str.strip() and int(). -/
def isPyWs (c : Char) : Bool :=
  c = ' ' || c = '\t' || c = '\n' || c = '\r' || c = '\x0b' || c = '\x0c'

/-! ## The gradient model: GradientStop and its validation (source lines 152-187) -/

/-- Immutable gradient color stop, mirroring the frozen dataclass
GradientStop with fields color and offset_percent. -/
structure GradientStop where
  color : String
  offset_percent : Int
deriving DecidableEq, Repr

/-- Validation error kinds raised as ValidationError by the source,
distinguished here by the message each raise site formats. -/
inductive VErr
  | badFont (font : String)
  | emptyText
  | tooLongText
  | badColor (color : String)
  | badOffset (offset : Int)
  | gradFormat (part : String)
  | gradBadInt (s : String)
  | minStops
deriving DecidableEq, Repr

/-- Shape accepted by `^#[0-9a-fA-F]{6}$` on an exact character list:
a hash sign followed by exactly six hex digits. -/
def hexCore : List Char → Bool
  | '#' :: rest => rest.length = 6 && rest.all isHexDig
  | _ => false

/-- Embedding of HEX_COLOR_PATTERN.match from the source: the Python regex
anchors at the start of the string, and the `$` anchor matches at the end
of the string or just before one final newline. -/
def hexColorMatch (s : String) : Bool :=
  hexCore s.toList || (s.toList.getLast? = some '\n' && hexCore s.toList.dropLast)

/-- GradientStop.__post_init__ (source lines 172-187): reject a color not
matched by HEX_COLOR_PATTERN, then an offset outside 0..100; otherwise the
constructed value holds the given fields unchanged. -/
def mkGradientStop (color : String) (offset : Int) : Except VErr GradientStop :=
  if !hexColorMatch color then .error (.badColor color)
  else if offset < 0 ∨ 100 < offset then .error (.badOffset offset)
  else .ok ⟨color, offset⟩

/-- Declarative reading of the hex color pattern: '#' then exactly six hex
digits, optionally followed by one final newline (the regex dollar anchor
also matches just before a trailing newline). -/
def specHexColor (s : String) : Prop :=
  (∃ ds : List Char, s.toList = '#' :: ds ∧ ds.length = 6 ∧ ∀ c ∈ ds, isHexDig c) ∨
  (∃ ds : List Char, s.toList = '#' :: ds ++ ['\n'] ∧ ds.length = 6 ∧ ∀ c ∈ ds, isHexDig c)

theorem hexCore_iff (l : List Char) :
    hexCore l = true ↔ ∃ ds : List Char, l = '#' :: ds ∧ ds.length = 6 ∧ ∀ c ∈ ds, isHexDig c := by
  constructor
  · intro h
    match l with
    | [] => simp [hexCore] at h
    | c :: rest =>
      by_cases hc : c = '#'
      · subst hc
        simp only [hexCore, Bool.and_eq_true, decide_eq_true_eq, List.all_eq_true] at h
        exact ⟨rest, rfl, h.1, h.2⟩
      · exfalso
        have : hexCore (c :: rest) = false := by
          unfold hexCore
          split
          · rename_i heq
            cases heq
            exact absurd rfl hc
          · rfl
        rw [this] at h
        exact Bool.false_ne_true h
  · rintro ⟨ds, rfl, hlen, hall⟩
    simp only [hexCore, Bool.and_eq_true, decide_eq_true_eq, List.all_eq_true]
    exact ⟨hlen, hall⟩

theorem hexColorMatch_iff (s : String) : hexColorMatch s = true ↔ specHexColor s := by
  unfold hexColorMatch specHexColor
  rw [Bool.or_eq_true, Bool.and_eq_true, hexCore_iff, hexCore_iff]
  simp only [decide_eq_true_eq]
  constructor
  · rintro (⟨ds, h, hl, ha⟩ | ⟨hlast, ds, h, hl, ha⟩)
    · exact Or.inl ⟨ds, h, hl, ha⟩
    · refine Or.inr ⟨ds, ?_, hl, ha⟩
      have hne : s.toList ≠ [] := by
        intro hnil
        rw [hnil] at hlast
        simp at hlast
      have hsp : s.toList = s.toList.dropLast ++ [s.toList.getLast hne] :=
        (List.dropLast_append_getLast hne).symm
      have hlv : s.toList.getLast hne = '\n' := by
        have hg := List.getLast?_eq_getLast s.toList hne
        rw [hg] at hlast
        exact Option.some.inj hlast
      rw [hsp, h, hlv]
  · rintro (⟨ds, h, hl, ha⟩ | ⟨ds, h, hl, ha⟩)
    · exact Or.inl ⟨ds, h, hl, ha⟩
    · refine Or.inr ⟨?_, ds, ?_, hl, ha⟩
      · rw [h, show ('#' :: ds ++ ['\n']) = ('#' :: ds) ++ ['\n'] from rfl,
          List.getLast?_concat]
      · rw [h, show ('#' :: ds ++ ['\n']) = ('#' :: ds) ++ ['\n'] from rfl,
          List.dropLast_concat]

/-- C7: GradientStop construction succeeds exactly when the color matches
the hex pattern and the position lies in 0..100, and valid inputs
round-trip unchanged through construction (the dataclass is frozen, so the
constructed value is the immutable pair of its two fields). -/
theorem gradient_stop_validation (c : String) (p : Int) :
    ((∃ st, mkGradientStop c p = .ok st) ↔ (specHexColor c ∧ 0 ≤ p ∧ p ≤ 100)) ∧
    (∀ st, mkGradientStop c p = .ok st → st.color = c ∧ st.offset_percent = p) := by
  constructor
  · constructor
    · rintro ⟨st, hst⟩
      unfold mkGradientStop at hst
      by_cases h1 : hexColorMatch c = true
      · rw [h1] at hst
        simp only [Bool.not_true, Bool.false_eq_true, if_false] at hst
        by_cases h2 : p < 0 ∨ 100 < p
        · rw [if_pos h2] at hst
          exact absurd hst (by simp)
        · push_neg at h2
          exact ⟨(hexColorMatch_iff c).mp h1, h2.1, h2.2⟩
      · rw [Bool.not_eq_true] at h1
        rw [h1] at hst
        simp at hst
    · rintro ⟨hc, hp0, hp1⟩
      refine ⟨⟨c, p⟩, ?_⟩
      unfold mkGradientStop
      rw [(hexColorMatch_iff c).mpr hc]
      have : ¬(p < 0 ∨ 100 < p) := by omega
      simp [this]
  · intro st hst
    unfold mkGradientStop at hst
    by_cases h1 : hexColorMatch c = true
    · rw [h1] at hst
      simp only [Bool.not_true, Bool.false_eq_true, if_false] at hst
      by_cases h2 : p < 0 ∨ 100 < p
      · rw [if_pos h2] at hst
        exact absurd hst (by simp)
      · rw [if_neg h2] at hst
        cases hst
        exact ⟨rfl, rfl⟩
    · rw [Bool.not_eq_true] at h1
      rw [h1] at hst
      simp at hst

/-- Witness for C7 at the concrete valid input ("#ff5555", 0). -/
theorem gradient_stop_validation_witness :
    specHexColor "#ff5555" ∧ (0:Int) ≤ 0 ∧ (0:Int) ≤ 100 ∧
    (∃ st, mkGradientStop "#ff5555" 0 = .ok st) := by
  have hs : specHexColor "#ff5555" := by
    refine Or.inl ⟨['f', 'f', '5', '5', '5', '5'], ?_, by decide, by decide⟩
    decide
  exact ⟨hs, le_refl 0, by decide,
    (gradient_stop_validation "#ff5555" 0).1.mpr ⟨hs, by decide, by decide⟩⟩

/-! ## Python string builtins embedded on character lists -/

/-- Python str.split with a one-character separator: pieces between
separator occurrences, with empty pieces kept ("".split(sep) is [""]). -/
def splitChar (sep : Char) : List Char → List (List Char)
  | [] => [[]]
  | c :: cs =>
    if c = sep then [] :: splitChar sep cs
    else
      match splitChar sep cs with
      | [] => [[c]]
      | p :: ps => (c :: p) :: ps

/-- Python str.strip() on a character list (ASCII whitespace fragment). -/
def pyStripL (l : List Char) : List Char :=
  ((l.dropWhile isPyWs).reverse.dropWhile isPyWs).reverse

/-- Decimal value of a digit run, skipping Python's digit-group underscores. -/
def digitsVal (ds : List Char) : Nat :=
  ds.foldl (fun a c => if c = '_' then a else a * 10 + (c.toNat - 48)) 0

/-- After a leading digit, every underscore must be followed by a digit and
all other characters must be digits (CPython's int() grammar). -/
def underTail : List Char → Bool
  | [] => true
  | ['_'] => false
  | '_' :: c :: rest => c.isDigit && underTail (c :: rest)
  | c :: rest => c.isDigit && underTail rest

/-- Digit run acceptable to int() after sign removal: nonempty, starts with
a digit, underscores only between digits. -/
def digitsOk : List Char → Bool
  | [] => false
  | c :: rest => c.isDigit && underTail rest

/-- Embedding of the int() builtin on the strings this program feeds it:
surrounding whitespace is stripped, one optional sign, then a base-10
digit run with optional single underscores between digits. -/
def pyIntParse (s : String) : Option Int :=
  match pyStripL s.toList with
  | '+' :: ds => if digitsOk ds then some (digitsVal ds) else none
  | '-' :: ds => if digitsOk ds then some (-(digitsVal ds : Int)) else none
  | ds => if digitsOk ds then some (digitsVal ds) else none

/-- Python part.rsplit(":", 1) when a colon is present: the text before the
last colon and the text after it. -/
def rsplitColon (l : List Char) : List Char × List Char :=
  let r := l.reverse
  (((r.dropWhile (· ≠ ':')).drop 1).reverse, (r.takeWhile (· ≠ ':')).reverse)

/-! ## The custom gradient parser (source lines 647-709) -/

/-- One loop iteration of parse_custom_gradient: strip the pair, require a
colon, split on the last colon, parse the offset with int(), then build the
stop through the validating constructor. -/
def parsePart (part : String) : Except VErr GradientStop :=
  if !(pyStripL part.toList).contains ':' then
    .error (.gradFormat (String.mk (pyStripL part.toList)))
  else
    match pyIntParse (String.mk (rsplitColon (pyStripL part.toList)).2) with
    | none => .error (.gradBadInt (String.mk (rsplitColon (pyStripL part.toList)).2))
    | some off => mkGradientStop (String.mk (pyStripL (rsplitColon (pyStripL part.toList)).1)) off

/-- The parser loop over the comma-separated pieces, stopping at the first
raised validation error. -/
def parseStops : List String → Except VErr (List GradientStop)
  | [] => .ok []
  | part :: rest =>
    match parsePart part with
    | .error e => .error e
    | .ok st =>
      match parseStops rest with
      | .error e => .error e
      | .ok sts => .ok (st :: sts)

/-- parse_custom_gradient: split on commas, parse every pair in order, then
require at least two resulting stops. -/
def parse_custom_gradient (s : String) : Except VErr (List GradientStop) :=
  match parseStops ((splitChar ',' s.toList).map String.mk) with
  | .error e => .error e
  | .ok stops => if stops.length < 2 then .error .minStops else .ok stops

/-- Position text of a pair per the claim: the text after the last colon of
the stripped pair. -/
def pairOffStr (part : String) : String :=
  String.mk (rsplitColon (pyStripL part.toList)).2

/-- Color text of a pair per the claim: the stripped text before the last
colon of the stripped pair. -/
def pairColorStr (part : String) : String :=
  String.mk (pyStripL (rsplitColon (pyStripL part.toList)).1)

theorem mkGradientStop_fields {c : String} {p : Int} {st : GradientStop}
    (h : mkGradientStop c p = .ok st) : st.color = c ∧ st.offset_percent = p := by
  unfold mkGradientStop at h
  by_cases h1 : hexColorMatch c = true
  · rw [h1] at h
    simp only [Bool.not_true, Bool.false_eq_true, if_false] at h
    by_cases h2 : p < 0 ∨ 100 < p
    · rw [if_pos h2] at h
      exact absurd h (by simp)
    · rw [if_neg h2] at h
      cases h
      exact ⟨rfl, rfl⟩
  · rw [Bool.not_eq_true] at h1
    rw [h1] at h
    simp at h

theorem parsePart_ok {part : String} {st : GradientStop} (h : parsePart part = .ok st) :
    st.color = pairColorStr part ∧ pyIntParse (pairOffStr part) = some st.offset_percent := by
  unfold parsePart at h
  split at h
  · exact absurd h (by simp)
  · split at h
    · exact absurd h (by simp)
    · rename_i hcol off hoff
      have hf := mkGradientStop_fields h
      refine ⟨hf.1, ?_⟩
      unfold pairOffStr
      rw [hoff, hf.2]

theorem parseStops_forall {parts : List String} {sts : List GradientStop}
    (h : parseStops parts = .ok sts) :
    List.Forall₂ (fun part st =>
      st.color = pairColorStr part ∧
      pyIntParse (pairOffStr part) = some st.offset_percent) parts sts := by
  induction parts generalizing sts with
  | nil =>
    unfold parseStops at h
    cases h
    exact List.Forall₂.nil
  | cons p ps ih =>
    unfold parseStops at h
    cases hp : parsePart p with
    | error e => rw [hp] at h; exact absurd h (by simp)
    | ok st =>
      rw [hp] at h
      cases hr : parseStops ps with
      | error e => rw [hr] at h; exact absurd h (by simp)
      | ok rest =>
        rw [hr] at h
        cases h
        exact List.Forall₂.cons (parsePart_ok hp) (ih hr)

/-- C4: the concrete example parses to exactly the two stops in input
order; a single pair fails with the minimum-stops error; a non-integer
position fails with the format error naming the offending text; and every
successful parse yields at least two stops and exactly one stop per
comma-separated pair, in input order, with the color and position of each
stop obtained by splitting that pair on its last colon (no sorting, no
deduplication). -/
theorem parse_custom_gradient_spec :
    (parse_custom_gradient "#ff0000:0,#0000ff:100" =
      .ok [⟨"#ff0000", 0⟩, ⟨"#0000ff", 100⟩]) ∧
    (parse_custom_gradient "#ff0000:0" = .error .minStops) ∧
    (parse_custom_gradient "#ff0000:abc,#0000ff:100" = .error (.gradBadInt "abc")) ∧
    (∀ s stops, parse_custom_gradient s = .ok stops →
      2 ≤ stops.length ∧
      List.Forall₂ (fun part st =>
        st.color = pairColorStr part ∧
        pyIntParse (pairOffStr part) = some st.offset_percent)
        ((splitChar ',' s.toList).map String.mk) stops) := by
  refine ⟨rfl, rfl, rfl, ?_⟩
  intro s stops h
  unfold parse_custom_gradient at h
  split at h
  · exact absurd h (by simp)
  · rename_i l hps
    split at h
    · exact absurd h (by simp)
    · rename_i hl
      cases h
      exact ⟨by omega, parseStops_forall hps⟩

/-- Witness for C4's universally quantified part at the concrete input. -/
theorem parse_custom_gradient_spec_witness :
    2 ≤ ([⟨"#ff0000", 0⟩, ⟨"#0000ff", 100⟩] : List GradientStop).length ∧
    List.Forall₂ (fun part st =>
      st.color = pairColorStr part ∧
      pyIntParse (pairOffStr part) = some st.offset_percent)
      ((splitChar ',' "#ff0000:0,#0000ff:100".toList).map String.mk)
      ([⟨"#ff0000", 0⟩, ⟨"#0000ff", 100⟩] : List GradientStop) :=
  parse_custom_gradient_spec.2.2.2 "#ff0000:0,#0000ff:100"
    ([⟨"#ff0000", 0⟩, ⟨"#0000ff", 100⟩] : List GradientStop) parse_custom_gradient_spec.1

/-! ## Grid renderer adapter (source lines 381-487) -/

/-- Result of rendering text to an ASCII grid, mirroring the frozen
dataclass GridResult. -/
structure GridResult where
  lines : List String
  width : Nat
  height : Nat
deriving DecidableEq, Repr

/-- Render failure kinds raised as RenderError by the source. -/
inductive RErr
  | timeout (cmd : List String)
  | bothFailed
  | emptyOutput (tool : String)
  | toiletMissing
  | toiletFailed
  | svgTimeout
deriving DecidableEq, Repr

/-- Outcome of render_text_grid: a grid, or one of the two error kinds. -/
inductive GridOutcome
  | ok (g : GridResult)
  | vErr (e : VErr)
  | rErr (e : RErr)
deriving DecidableEq, Repr

/-- Python stdout.rstrip("\n"): remove every trailing newline. -/
def rstripNl (l : List Char) : List Char :=
  (l.reverse.dropWhile (fun c => c = '\n')).reverse

/-- Python max over the line lengths (the list is never empty where the
source calls max, so the 0 default is never the deciding value). -/
def maxNat : List Nat → Nat
  | [] => 0
  | n :: ns => max n (maxNat ns)

/-- Python line.ljust(w): right-pad with spaces up to width w. -/
def ljustL (w : Nat) (l : List Char) : List Char :=
  l ++ List.replicate (w - l.length) ' '

/-- Raw lines of the engine output: strip all trailing newlines, then
split on newline boundaries. -/
def rawLines (stdout : String) : List (List Char) :=
  splitChar '\n' (rstripNl stdout.toList)

/-- Padded grid width: the maximum observed raw line length. -/
def gridWidth (stdout : String) : Nat :=
  maxNat ((rawLines stdout).map List.length)

/-- Post-processing of the engine output in render_text_grid (source lines
469-487): reject output whose raw lines are all empty, otherwise pad every
line to the maximum length and report the padded dimensions. -/
def postProcess (tool : String) (stdout : String) : GridOutcome :=
  if (rawLines stdout).isEmpty || (rawLines stdout).all List.isEmpty then
    .rErr (.emptyOutput tool)
  else
    .ok ⟨(rawLines stdout).map (fun l => String.mk (ljustL (gridWidth stdout) l)),
         gridWidth stdout, (rawLines stdout).length⟩

/-- Result of one subprocess.run call, as the source distinguishes them:
success (with captured stdout), FileNotFoundError, CalledProcessError, or
TimeoutExpired. -/
inductive ProcResult
  | success (stdout : String)
  | fileNotFound
  | calledProcessError
  | timeoutExpired
deriving DecidableEq, Repr

/-- The external world: what each argument vector would return. -/
structure Env where
  run : List String → ProcResult

/-- Argument vector of the toilet invocation in render_text_grid. -/
def toiletCmd (font text : String) : List String := ["toilet", "-f", font, "--", text]

/-- Argument vector of the figlet invocation in render_text_grid. -/
def figletCmd (font text : String) : List String := ["figlet", "-f", font, "--", text]

/-- Shape accepted by `^[a-zA-Z0-9_-]+$` on an exact character list. -/
def fontCore (l : List Char) : Bool := !l.isEmpty && l.all isFontChar

/-- Embedding of FONT_NAME_PATTERN.match: the dollar anchor also matches
just before one final newline. -/
def fontNameMatch (s : String) : Bool :=
  fontCore s.toList || (s.toList.getLast? = some '\n' && fontCore s.toList.dropLast)

/-- render_text_grid (source lines 381-487): validate text then font, then
run toilet; on FileNotFoundError or CalledProcessError fall through to
figlet; on TimeoutExpired raise immediately; post-process a success.  The
second component records every subprocess invocation performed, in order. -/
def render_text_grid (env : Env) (text font : String) :
    GridOutcome × List (List String) :=
  if text = "" then (.vErr .emptyText, [])
  else if 1000 < text.length then (.vErr .tooLongText, [])
  else if !fontNameMatch font then (.vErr (.badFont font), [])
  else
    match env.run (toiletCmd font text) with
    | .success out => (postProcess "toilet" out, [toiletCmd font text])
    | .timeoutExpired => (.rErr (.timeout (toiletCmd font text)), [toiletCmd font text])
    | _ =>
      match env.run (figletCmd font text) with
      | .success out =>
          (postProcess "figlet" out, [toiletCmd font text, figletCmd font text])
      | .timeoutExpired =>
          (.rErr (.timeout (figletCmd font text)),
           [toiletCmd font text, figletCmd font text])
      | _ => (.rErr .bothFailed, [toiletCmd font text, figletCmd font text])

/-- An environment where toilet is present but exits non-zero (for example
an unknown font) and figlet succeeds. -/
def envCPE : Env :=
  ⟨fun cmd => if cmd.head? = some "toilet" then .calledProcessError else .success "##"⟩

/-- An environment where every executable is missing. -/
def envNF : Env := ⟨fun _ => .fileNotFound⟩

/-- C3 counterexample: with toilet present but exiting non-zero, figlet is
still invoked, contradicting the claim that the secondary engine runs only
when the primary executable is absent. -/
theorem render_fallback_cex :
    (render_text_grid envCPE "Hi" "banner3").2 =
      [toiletCmd "banner3" "Hi", figletCmd "banner3" "Hi"] ∧
    envCPE.run (toiletCmd "banner3" "Hi") = .calledProcessError ∧
    envCPE.run (toiletCmd "banner3" "Hi") ≠ .fileNotFound := by
  refine ⟨by decide, by decide, by decide⟩

theorem cmds_ne (font text : String) : toiletCmd font text ≠ figletCmd font text := by
  simp [toiletCmd, figletCmd]

/-- C3 amended: in grid mode the secondary engine (figlet) is invoked
exactly when the primary invocation reports a missing executable or a
non-zero exit; a timed-out primary invocation raises a render failure
immediately and figlet is never attempted. -/
theorem render_fallback_policy (env : Env) (text font : String)
    (htext : text ≠ "" ∧ text.length ≤ 1000) (hfont : fontNameMatch font = true) :
    (figletCmd font text ∈ (render_text_grid env text font).2 ↔
      env.run (toiletCmd font text) = .fileNotFound ∨
      env.run (toiletCmd font text) = .calledProcessError) ∧
    (env.run (toiletCmd font text) = .timeoutExpired →
      (render_text_grid env text font).1 = .rErr (.timeout (toiletCmd font text)) ∧
      figletCmd font text ∉ (render_text_grid env text font).2) := by
  have hne := (cmds_ne font text).symm
  unfold render_text_grid
  rw [if_neg htext.1, if_neg (by omega : ¬(1000 < text.length)),
    if_neg (by simp [hfont])]
  cases henv : env.run (toiletCmd font text) with
  | success out =>
    simp only [henv]
    constructor
    · simp [List.mem_singleton, hne]
    · intro hcontra
      simp at hcontra
  | fileNotFound =>
    simp only [henv]
    cases henv2 : env.run (figletCmd font text) <;> simp
  | calledProcessError =>
    simp only [henv]
    cases henv2 : env.run (figletCmd font text) <;> simp
  | timeoutExpired =>
    simp only [henv]
    constructor
    · simp [List.mem_singleton, hne]
    · intro _
      exact ⟨by simp, by simp [List.mem_singleton, hne]⟩

/-- Witness for C3's amended theorem in the all-missing environment. -/
theorem render_fallback_policy_witness :
    (figletCmd "banner3" "Hi" ∈ (render_text_grid envNF "Hi" "banner3").2 ↔
      envNF.run (toiletCmd "banner3" "Hi") = .fileNotFound ∨
      envNF.run (toiletCmd "banner3" "Hi") = .calledProcessError) ∧
    (envNF.run (toiletCmd "banner3" "Hi") = .timeoutExpired →
      (render_text_grid envNF "Hi" "banner3").1 =
        .rErr (.timeout (toiletCmd "banner3" "Hi")) ∧
      figletCmd "banner3" "Hi" ∉ (render_text_grid envNF "Hi" "banner3").2) :=
  render_fallback_policy envNF "Hi" "banner3" ⟨by decide, by decide⟩ (by decide)

/-! ## Post-processing claims: C5 and C6 -/

/-- The claim's reading of the newline handling: drop exactly one trailing
newline if one is present. -/
def dropOneNl (l : List Char) : List Char :=
  if l.getLast? = some '\n' then l.dropLast else l

/-- Lines produced by the claim's procedure: split after dropping one
trailing newline, then pad to the maximum length. -/
def specPadLines (l : List Char) : List (List Char) :=
  (splitChar '\n' (dropOneNl l)).map
    (ljustL (maxNat ((splitChar '\n' (dropOneNl l)).map List.length)))

/-- C5 counterexample: on engine output "#\n\n" the code strips both
trailing newlines and yields a one-line grid, while the claim's procedure
(drop exactly one newline) would produce two lines. -/
theorem postprocess_newline_cex :
    postProcess "toilet" "#\n\n" = .ok ⟨["#"], 1, 1⟩ ∧
    (specPadLines "#\n\n".toList).length = 2 ∧
    (specPadLines "#\n\n".toList).map String.mk ≠ ["#"] := by
  refine ⟨by decide, by decide, by decide⟩

theorem le_maxNat {n : Nat} {ns : List Nat} (h : n ∈ ns) : n ≤ maxNat ns := by
  induction ns with
  | nil => cases h
  | cons m ms ih =>
    rcases List.mem_cons.mp h with rfl | hm
    · exact le_max_left _ _
    · exact le_trans (ih hm) (le_max_right _ _)

/-- C5 amended: the post-processing drops ALL trailing newlines (Python
rstrip), splits on newline boundaries, right-pads every line with spaces
to the maximum observed line length, and reports width/height as the
padded dimensions, so every line of the result has length equal to the
reported width. -/
theorem postprocess_padding (tool stdout : String) (g : GridResult)
    (h : postProcess tool stdout = .ok g) :
    g.lines = (rawLines stdout).map (fun l => String.mk (ljustL (gridWidth stdout) l)) ∧
    g.width = gridWidth stdout ∧
    g.height = (rawLines stdout).length ∧
    ∀ line ∈ g.lines, line.length = g.width := by
  unfold postProcess at h
  split at h
  · exact absurd h (by simp)
  · cases h
    refine ⟨rfl, rfl, rfl, ?_⟩
    intro line hline
    rcases List.mem_map.mp hline with ⟨l, hl, rfl⟩
    have hlen : l.length ≤ gridWidth stdout :=
      le_maxNat (List.mem_map_of_mem List.length hl)
    simp only [String.length, String.mk, ljustL, List.length_append,
      List.length_replicate]
    omega

/-- Witness for C5's amended theorem on a concrete ragged output. -/
theorem postprocess_padding_witness :
    (GridResult.mk ["# ", "# "] 2 2).lines =
      (rawLines "# \n#").map (fun l => String.mk (ljustL (gridWidth "# \n#") l)) ∧
    (GridResult.mk ["# ", "# "] 2 2).width = gridWidth "# \n#" ∧
    (GridResult.mk ["# ", "# "] 2 2).height = (rawLines "# \n#").length ∧
    ∀ line ∈ (GridResult.mk ["# ", "# "] 2 2).lines,
      line.length = (GridResult.mk ["# ", "# "] 2 2).width :=
  postprocess_padding "toilet" "# \n#" (GridResult.mk ["# ", "# "] 2 2) (by decide)

/-- C6 counterexample: output consisting of a single space is entirely
blank whitespace, yet post-processing succeeds with a one-cell grid of a
space rather than raising the render failure the claim requires. -/
theorem blank_output_cex :
    postProcess "toilet" " " = .ok ⟨[" "], 1, 1⟩ ∧
    " ".toList.all isPyWs = true := by
  refine ⟨by decide, by decide⟩

theorem splitChar_ne_nil (sep : Char) (l : List Char) : splitChar sep l ≠ [] := by
  induction l with
  | nil => simp [splitChar]
  | cons c cs ih =>
    unfold splitChar
    split
    · simp
    · split
      · simp
      · simp

theorem splitChar_cons (sep c : Char) (cs : List Char) :
    splitChar sep (c :: cs) =
      if c = sep then [] :: splitChar sep cs
      else
        match splitChar sep cs with
        | [] => [[c]]
        | p :: ps => (c :: p) :: ps := rfl

theorem dropWhile_head_false {p : Char → Bool} {l r : List Char} {c : Char}
    (h : l.dropWhile p = c :: r) : p c = false := by
  induction l with
  | nil => simp [List.dropWhile] at h
  | cons a as ih =>
    rw [List.dropWhile_cons] at h
    split at h
    · exact ih h
    · rename_i hpc
      cases h
      simpa using hpc

theorem splitChar_all_empty_iff (l : List Char) :
    ((splitChar '\n' l).all List.isEmpty = true) ↔ (l.all (fun c => c = '\n') = true) := by
  induction l with
  | nil => simp [splitChar]
  | cons c cs ih =>
    by_cases hc : c = '\n'
    · subst hc
      rw [show splitChar '\n' ('\n' :: cs) = [] :: splitChar '\n' cs from by
        rw [splitChar_cons, if_pos rfl]]
      simpa using ih
    · have hsplit : ∃ p ps, splitChar '\n' cs = p :: ps := by
        cases hs : splitChar '\n' cs with
        | nil => exact absurd hs (splitChar_ne_nil '\n' cs)
        | cons p ps => exact ⟨p, ps, rfl⟩
      rcases hsplit with ⟨p, ps, hs⟩
      rw [show splitChar '\n' (c :: cs) = (c :: p) :: ps from by
        rw [splitChar_cons, if_neg hc, hs]]
      simp [hc]

theorem rstripNl_all_iff (l : List Char) :
    ((rstripNl l).all (fun c => c = '\n') = true) ↔ (l.all (fun c => c = '\n') = true) := by
  unfold rstripNl
  constructor
  · intro h
    cases hd : l.reverse.dropWhile (fun c => c = '\n') with
    | nil =>
      have : l.reverse.all (fun c => c = '\n') = true := by
        rw [List.all_eq_true]
        intro c hc
        have := List.dropWhile_eq_nil_iff.mp hd c (by simpa using hc)
        simpa using this
      rw [List.all_eq_true] at this ⊢
      intro c hc
      exact this c (by simpa using hc)
    | cons a r =>
      exfalso
      have ha : (fun c => decide (c = '\n')) a = false := dropWhile_head_false hd
      rw [hd] at h
      rw [List.all_reverse, List.all_eq_true] at h
      exact absurd (h a (by simp)) (by simp [ha])
  · intro h
    have : l.reverse.dropWhile (fun c => c = '\n') = [] := by
      rw [List.dropWhile_eq_nil_iff]
      intro c hc
      rw [List.all_eq_true] at h
      exact h c (by simpa using hc)
    rw [this]
    simp

/-- C6 amended: the blank-output render failure is raised exactly when the
engine output consists solely of newline characters (equivalently, every
split line is the empty string); lines made of other whitespace do NOT
trigger it. -/
theorem blank_output_policy (tool stdout : String) :
    (postProcess tool stdout = .rErr (.emptyOutput tool)) ↔
    (stdout.toList.all (fun c => c = '\n') = true) := by
  unfold postProcess
  split
  · rename_i hcond
    refine ⟨fun _ => ?_, fun _ => rfl⟩
    rw [Bool.or_eq_true] at hcond
    rcases hcond with hemp | hall
    · exact absurd (List.isEmpty_iff.mp hemp) (splitChar_ne_nil '\n' _)
    · rw [← rstripNl_all_iff]
      exact (splitChar_all_empty_iff (rstripNl stdout.toList)).mp hall
  · rename_i hcond
    refine ⟨fun hc => absurd hc (by simp), fun hall => absurd ?_ hcond⟩
    rw [Bool.or_eq_true]
    right
    exact (splitChar_all_empty_iff (rstripNl stdout.toList)).mpr
      ((rstripNl_all_iff stdout.toList).mpr hall)

/-- Witness for C6's amended theorem: a newline-only output raises the
blank-output render failure. -/
theorem blank_output_policy_witness :
    postProcess "toilet" "\n\n" = .rErr (.emptyOutput "toilet") :=
  (blank_output_policy "toilet" "\n\n").mpr (by decide)

/-! ## Path synthesizer: grid_to_paths (source lines 490-566) -/

/-- Result of converting a grid to SVG path data, mirroring the frozen
dataclass PathResult. -/
structure PathResult where
  path_data : String
  width : Int
  height : Int
deriving DecidableEq, Repr

/-- One rectangle subpath as the source formats it:
M{px},{py}h{scale}v{scale}h{-scale}Z. -/
def rectSeg (px py scale : Int) : String :=
  "M" ++ toString px ++ "," ++ toString py ++ "h" ++ toString scale ++
    "v" ++ toString scale ++ "h" ++ toString (-scale) ++ "Z"

/-- Inner loop of grid_to_paths over the characters of one line, tracking
the column index: a space emits nothing, every other character emits one
square of side scale at (column*scale, row*scale). -/
def rowSegs (scale : Int) (y : Nat) : Nat → List Char → List String
  | _, [] => []
  | x, c :: cs =>
    if c = ' ' then rowSegs scale y (x + 1) cs
    else rectSeg (x * scale) (y * scale) scale :: rowSegs scale y (x + 1) cs

/-- Outer loop of grid_to_paths over the lines, tracking the row index. -/
def gridSegs (scale : Int) : Nat → List String → List String
  | _, [] => []
  | y, line :: rest => rowSegs scale y 0 line.toList ++ gridSegs scale (y + 1) rest

/-- The path_segments list accumulated by the nested loops. -/
def path_segments (lines : List String) (scale : Int) : List String :=
  gridSegs scale 0 lines

/-- Python sep.join(parts). -/
def joinSep (sep : String) : List String → String
  | [] => ""
  | [x] => x
  | x :: xs => x ++ sep ++ joinSep sep xs

/-- grid_to_paths: empty grids short-circuit to empty geometry; otherwise
the subpaths are joined with spaces and the bounding box is the grid
dimensions times the scale. -/
def grid_to_paths (grid : GridResult) (scale : Int) : PathResult :=
  if grid.lines = [] then ⟨"", 0, 0⟩
  else ⟨joinSep " " (path_segments grid.lines scale),
        (grid.width : Int) * scale, (grid.height : Int) * scale⟩

/-- The CharacterGrid invariant: height is the number of rows, every row
has the reported width, and a zero-row grid reports width zero. -/
def WFGrid (g : GridResult) : Prop :=
  g.height = g.lines.length ∧ (∀ l ∈ g.lines, l.length = g.width) ∧
  (g.lines = [] → g.width = 0)

/-- Character of the grid at (row y, column x). -/
def cellAt (lines : List String) (y x : Nat) : Char :=
  (lines.getD y "").toList.getD x ' '

/-- Row-major list of the non-blank cell coordinates (y, x), as the claim
describes the scan. -/
def nonBlankCells (lines : List String) : List (Nat × Nat) :=
  (List.range lines.length).flatMap fun y =>
    ((List.range (lines.getD y "").toList.length).filter
      (fun x => cellAt lines y x ≠ ' ')).map fun x => (y, x)

/-- Number of non-blank cells, counted row by row. -/
def nonBlankCount (lines : List String) : Nat :=
  (lines.map (fun l => (l.toList.filter (fun c => c ≠ ' ')).length)).sum

theorem toList_length (s : String) : s.toList.length = s.length := rfl

theorem rowSegs_eq (scale : Int) (y : Nat) (cs : List Char) (x0 : Nat) :
    rowSegs scale y x0 cs =
      ((List.range cs.length).filter (fun i => cs.getD i ' ' ≠ ' ')).map
        (fun i : Nat => rectSeg ((↑(x0 + i) : Int) * scale) (↑y * scale) scale) := by
  induction cs generalizing x0 with
  | nil => simp [rowSegs]
  | cons c cs ih =>
    rw [show rowSegs scale y x0 (c :: cs) =
        (if c = ' ' then rowSegs scale y (x0 + 1) cs
         else rectSeg (↑x0 * scale) (↑y * scale) scale :: rowSegs scale y (x0 + 1) cs)
      from rfl]
    rw [List.length_cons, List.range_succ_eq_map, List.filter_cons]
    simp only [List.getD_cons_zero]
    rw [List.filter_map]
    rw [show (fun i => decide ((c :: cs).getD i ' ' ≠ ' ')) ∘ Nat.succ =
        (fun i => decide (cs.getD i ' ' ≠ ' ')) from rfl]
    have hfun : ((fun i : Nat => rectSeg ((↑(x0 + i) : Int) * scale) (↑y * scale) scale)
        ∘ Nat.succ) = (fun i : Nat => rectSeg ((↑(x0 + 1 + i) : Int) * scale)
          (↑y * scale) scale) := by
      funext i
      show rectSeg ((↑(x0 + Nat.succ i) : Int) * scale) (↑y * scale) scale =
        rectSeg ((↑(x0 + 1 + i) : Int) * scale) (↑y * scale) scale
      rw [show x0 + Nat.succ i = x0 + 1 + i from by omega]
    by_cases hc : c = ' '
    · subst hc
      rw [if_pos rfl]
      rw [if_neg (by decide : ¬(decide ((' ' : Char) ≠ ' ') = true))]
      rw [List.map_map, hfun, ih (x0 + 1)]
    · rw [if_neg hc]
      rw [if_pos (by simpa using hc : decide ((c : Char) ≠ ' ') = true)]
      simp only [List.map_cons, List.map_map]
      rw [hfun, ih (x0 + 1)]
      simp

theorem gridSegs_eq (scale : Int) (lines : List String) (y0 : Nat) :
    gridSegs scale y0 lines =
      (List.range lines.length).flatMap fun y =>
        ((List.range (lines.getD y "").toList.length).filter
          (fun x => cellAt lines y x ≠ ' ')).map
          (fun x : Nat => rectSeg ((↑x : Int) * scale) ((↑(y0 + y) : Int) * scale) scale) := by
  induction lines generalizing y0 with
  | nil => simp [gridSegs]
  | cons line rest ih =>
    rw [show gridSegs scale y0 (line :: rest) =
        rowSegs scale y0 0 line.toList ++ gridSegs scale (y0 + 1) rest from rfl]
    rw [List.length_cons, List.range_succ_eq_map, List.flatMap_cons, List.flatMap_map]
    congr 1
    · rw [rowSegs_eq]
      simp only [cellAt, List.getD_cons_zero]
      apply List.map_congr_left
      intro i _
      simp
    · rw [ih (y0 + 1)]
      congr 1
      funext y
      simp only [Function.comp, cellAt, List.getD_cons_succ]
      have harith : y0 + 1 + y = y0 + (y + 1) := by omega
      rw [harith]

theorem path_segments_eq (lines : List String) (scale : Int) :
    path_segments lines scale = (nonBlankCells lines).map
      (fun yx : Nat × Nat => rectSeg ((yx.2 : Int) * scale) ((yx.1 : Int) * scale) scale) := by
  unfold path_segments nonBlankCells
  rw [gridSegs_eq, List.map_flatMap]
  congr 1
  funext y
  rw [List.map_map]
  congr 1
  funext x
  show rectSeg ((↑x : Int) * scale) ((↑(0 + y) : Int) * scale) scale =
    rectSeg ((↑x : Int) * scale) ((↑y : Int) * scale) scale
  rw [Nat.zero_add]

theorem rowSegs_length (scale : Int) (y x0 : Nat) (cs : List Char) :
    (rowSegs scale y x0 cs).length = (cs.filter (fun c => c ≠ ' ')).length := by
  induction cs generalizing x0 with
  | nil => rfl
  | cons c cs ih =>
    by_cases hc : c = ' '
    · subst hc
      simp [rowSegs, List.filter_cons, ih]
    · simp [rowSegs, List.filter_cons, hc, ih]

theorem gridSegs_length (scale : Int) (y0 : Nat) (lines : List String) :
    (gridSegs scale y0 lines).length = nonBlankCount lines := by
  induction lines generalizing y0 with
  | nil => rfl
  | cons line rest ih =>
    simp [gridSegs, nonBlankCount, rowSegs_length, ih, List.map_cons, List.sum_cons]

/-- C1: grid_to_paths scans cells in row-major order, emitting exactly one
square subpath of side scale at (column*scale, row*scale) per non-blank
cell and nothing for blank cells: the path data is the space-joined list
of exactly those squares in row-major cell order, the number of emitted
subpaths equals the number of non-blank cells, and the reported bounding
box is exactly (width*scale, height*scale). -/
theorem grid_to_paths_spec (grid : GridResult) (scale : Int)
    (hwf : WFGrid grid) (_hscale : 0 < scale) :
    (grid_to_paths grid scale).path_data =
      joinSep " " ((nonBlankCells grid.lines).map
        (fun yx : Nat × Nat => rectSeg ((yx.2 : Int) * scale) ((yx.1 : Int) * scale) scale)) ∧
    (path_segments grid.lines scale).length = nonBlankCount grid.lines ∧
    (grid_to_paths grid scale).width = (grid.width : Int) * scale ∧
    (grid_to_paths grid scale).height = (grid.height : Int) * scale := by
  obtain ⟨hh, hrow, hemp⟩ := hwf
  by_cases h : grid.lines = []
  · refine ⟨?_, ?_, ?_, ?_⟩
    · rw [h]
      simp [grid_to_paths, h, nonBlankCells, joinSep]
    · rw [h]
      rfl
    · have hw : grid.width = 0 := hemp h
      simp [grid_to_paths, h, hw]
    · have hht : grid.height = 0 := by rw [hh, h]; rfl
      simp [grid_to_paths, h, hht]
  · unfold grid_to_paths
    rw [if_neg h]
    exact ⟨by rw [path_segments_eq], gridSegs_length scale 0 grid.lines, rfl, rfl⟩

/-- Witness for C1 on a concrete 2x3 grid at scale 10. -/
theorem grid_to_paths_spec_witness :
    (grid_to_paths (GridResult.mk ["# #", " # "] 3 2) 10).path_data =
      joinSep " " ((nonBlankCells ["# #", " # "]).map
        (fun yx : Nat × Nat => rectSeg ((yx.2 : Int) * 10) ((yx.1 : Int) * 10) 10)) ∧
    (path_segments ["# #", " # "] 10).length = nonBlankCount ["# #", " # "] ∧
    (grid_to_paths (GridResult.mk ["# #", " # "] 3 2) 10).width = ((3 : Nat) : Int) * 10 ∧
    (grid_to_paths (GridResult.mk ["# #", " # "] 3 2) 10).height = ((2 : Nat) : Int) * 10 :=
  grid_to_paths_spec (GridResult.mk ["# #", " # "] 3 2) 10
    ⟨rfl, by decide, fun hcon => absurd hcon (by decide)⟩ (by decide)

theorem rowSegs_all_blank {scale : Int} {y : Nat} {cs : List Char}
    (h : ∀ c ∈ cs, c = ' ') : ∀ x0, rowSegs scale y x0 cs = [] := by
  induction cs with
  | nil => intro x0; rfl
  | cons c cs ih =>
    intro x0
    have hc : c = ' ' := h c (by simp)
    subst hc
    show (if (' ' : Char) = ' ' then rowSegs scale y (x0 + 1) cs
      else rectSeg (↑x0 * scale) (↑y * scale) scale :: rowSegs scale y (x0 + 1) cs) = []
    rw [if_pos rfl]
    exact ih (fun d hd => h d (by simp [hd])) (x0 + 1)

theorem path_segments_all_blank {lines : List String} {scale : Int}
    (h : ∀ l ∈ lines, ∀ c ∈ l.toList, c = ' ') : path_segments lines scale = [] := by
  unfold path_segments
  suffices hgen : ∀ y0, gridSegs scale y0 lines = [] from hgen 0
  induction lines with
  | nil => intro y0; rfl
  | cons line rest ih =>
    intro y0
    show rowSegs scale y0 0 line.toList ++ gridSegs scale (y0 + 1) rest = []
    rw [rowSegs_all_blank (h line (by simp)) 0,
      ih (fun l hl => h l (by simp [hl])) (y0 + 1)]
    rfl

/-- C2 counterexample: the all-blank one-cell grid yields empty path data
but a 10x10 bounding box at scale 10 — the bounding box area is not zero. -/
theorem grid_blank_cex :
    (∀ l ∈ (GridResult.mk [" "] 1 1).lines, ∀ c ∈ l.toList, c = ' ') ∧
    WFGrid (GridResult.mk [" "] 1 1) ∧
    (grid_to_paths (GridResult.mk [" "] 1 1) 10).path_data = "" ∧
    (grid_to_paths (GridResult.mk [" "] 1 1) 10).width *
      (grid_to_paths (GridResult.mk [" "] 1 1) 10).height ≠ 0 := by
  refine ⟨by decide, ⟨rfl, by decide, fun hcon => absurd hcon (by decide)⟩, by decide, by decide⟩

/-- C2 amended: an all-blank grid yields empty path geometry, and the
zero-row grid additionally reports a zero bounding box; neither case is an
error (grid_to_paths is total).  A non-empty all-blank grid keeps the full
(width*scale, height*scale) bounding box. -/
theorem grid_blank_policy (grid : GridResult) (scale : Int) (_hwf : WFGrid grid)
    (hblank : ∀ l ∈ grid.lines, ∀ c ∈ l.toList, c = ' ') :
    (grid_to_paths grid scale).path_data = "" ∧
    (grid.lines = [] → (grid_to_paths grid scale).width = 0 ∧
      (grid_to_paths grid scale).height = 0) := by
  unfold grid_to_paths
  by_cases h : grid.lines = []
  · rw [if_pos h]
    exact ⟨rfl, fun _ => ⟨rfl, rfl⟩⟩
  · rw [if_neg h]
    refine ⟨?_, fun hcon => absurd hcon h⟩
    rw [path_segments_all_blank hblank]
    rfl

/-- Witness for C2's amended theorem on the all-blank one-cell grid. -/
theorem grid_blank_policy_witness :
    (grid_to_paths (GridResult.mk [" "] 1 1) 10).path_data = "" ∧
    ((GridResult.mk [" "] 1 1).lines = [] →
      (grid_to_paths (GridResult.mk [" "] 1 1) 10).width = 0 ∧
      (grid_to_paths (GridResult.mk [" "] 1 1) 10).height = 0) :=
  grid_blank_policy (GridResult.mk [" "] 1 1) 10
    ⟨rfl, by decide, fun hcon => absurd hcon (by decide)⟩ (by decide)

theorem nonBlankCells_mem (lines : List String) (y x : Nat) :
    (y, x) ∈ nonBlankCells lines ↔
      y < lines.length ∧ x < (lines.getD y "").toList.length ∧
      cellAt lines y x ≠ ' ' := by
  unfold nonBlankCells
  simp only [List.mem_flatMap, List.mem_map, List.mem_filter, List.mem_range,
    Prod.mk.injEq, decide_eq_true_eq]
  constructor
  · rintro ⟨y', hy', x', ⟨hx', hcell⟩, rfl, rfl⟩
    exact ⟨hy', hx', hcell⟩
  · rintro ⟨hy, hx, hcell⟩
    exact ⟨y, hy, x, ⟨hx, hcell⟩, rfl, rfl⟩

/-- C10: in grid_to_paths only the space character U+0020 counts as blank:
every cell holding any other character — including other whitespace such
as a tab — emits its filled square subpath. -/
theorem nonspace_cell_emits (grid : GridResult) (scale : Int) (y x : Nat)
    (hy : y < grid.lines.length) (hx : x < (grid.lines.getD y "").toList.length)
    (hc : cellAt grid.lines y x ≠ ' ') :
    rectSeg ((x : Int) * scale) ((y : Int) * scale) scale ∈
      path_segments grid.lines scale := by
  rw [path_segments_eq]
  exact List.mem_map.mpr ⟨(y, x), (nonBlankCells_mem grid.lines y x).mpr ⟨hy, hx, hc⟩, rfl⟩

/-- Witness for C10: a tab cell emits its square. -/
theorem nonspace_cell_emits_witness :
    rectSeg (((0 : Nat) : Int) * 10) (((0 : Nat) : Int) * 10) 10 ∈
      path_segments ["\t"] 10 :=
  nonspace_cell_emits (GridResult.mk ["\t"] 1 1) 10 0 0 (by decide) (by decide) (by decide)

/-! ## Text mode: render_text_svg and its SVG rewriting (source lines 717-853)

The five re.sub passes of render_text_svg are embedded by a scanner reSub
that, like Python's re.sub, walks the string left to right, replaces each
leftmost non-overlapping match and resumes after it.  Each regex of the
source is embedded by a matcher that reproduces the match the backtracking
engine finds: for the rect patterns `<rect[^>]*LIT[^>]*/>\n?` the match,
when it exists, always extends to the first '>' (every other piece of the
pattern excludes '>'), so a match is exactly: the literal "<rect", then a
'>'-free stretch containing LIT and ending "/>", then at most one newline. -/

/-- Consume a literal from the front of the input, or fail. -/
def eatL : List Char → List Char → Option (List Char)
  | [], l => some l
  | _ :: _, [] => none
  | p :: ps, c :: cs => if p = c then eatL ps cs else none

/-- Scan `[^>]*` then "/>": walk to the first '>', which must be preceded
by '/'; return the consumed characters and the remainder. -/
def closeScan : List Char → Option (List Char × List Char)
  | '/' :: '>' :: cs => some (['/', '>'], cs)
  | '>' :: _ => none
  | c :: cs => (closeScan cs).map (fun p => (c :: p.1, p.2))
  | [] => none

/-- Scan `[^>]*LIT[^>]*/>`: find an occurrence of LIT before the first
'>', then the closing "/>".  Committing to the first occurrence of LIT is
equivalent to the engine's backtracking search, because every candidate
occurrence lies before the same first '>'. -/
def litScan (lit : List Char) : List Char → Option (List Char × List Char)
  | [] => none
  | c :: cs =>
    match eatL lit (c :: cs) with
    | some r =>
      match closeScan r with
      | some (ch, rest) => some (lit ++ ch, rest)
      | none => none
    | none =>
      if c = '>' then none
      else (litScan lit cs).map (fun p => (c :: p.1, p.2))

def rectLit : List Char := "<rect".toList

def bgStyleLit : List Char := "style=\"fill:#000\"".toList

def backdropLit : List Char := "class=\"backdrop\"".toList

/-- Matcher for `<rect[^>]*style="fill:#000"[^>]*/>\n?` (step 1). -/
def bgRectM (l : List Char) : Option (List Char × List Char) :=
  (eatL rectLit l).bind fun r1 =>
    (litScan bgStyleLit r1).bind fun p =>
      match p.2 with
      | '\n' :: r3 => some (rectLit ++ p.1 ++ ['\n'], r3)
      | _ => some (rectLit ++ p.1, p.2)

/-- Matcher for `<rect[^>]*class="backdrop"[^>]*/>\n?` (step 4). -/
def backdropM (l : List Char) : Option (List Char × List Char) :=
  (eatL rectLit l).bind fun r1 =>
    (litScan backdropLit r1).bind fun p =>
      match p.2 with
      | '\n' :: r3 => some (rectLit ++ p.1 ++ ['\n'], r3)
      | _ => some (rectLit ++ p.1, p.2)

/-- Walk to the first '>' and consume it. -/
def gtScan : List Char → Option (List Char × List Char)
  | [] => none
  | c :: cs =>
    if c = '>' then some ([c], cs)
    else (gtScan cs).map (fun p => (c :: p.1, p.2))

def svgLit : List Char := "<svg".toList

/-- Matcher for `(<svg[^>]*>)` (step 2). -/
def svgTagM (l : List Char) : Option (List Char × List Char) :=
  (eatL svgLit l).bind fun r =>
    (gtScan r).map fun p => (svgLit ++ p.1, p.2)

def fillLit : List Char := "style=\"fill:#".toList

def countLeading (p : Char → Bool) : List Char → Nat
  | [] => 0
  | c :: cs => if p c then countLeading p cs + 1 else 0

/-- Matcher for `style="fill:#[0-9a-fA-F]{3,6}"` (step 3): the whole run
of hex digits must have length 3..6 and be closed by a quote. -/
def fillHexM (l : List Char) : Option (List Char × List Char) :=
  (eatL fillLit l).bind fun r =>
    if 3 ≤ countLeading isHexDig r ∧ countLeading isHexDig r ≤ 6 ∧
        r.getD (countLeading isHexDig r) ' ' = '"' then
      some (fillLit ++ r.take (countLeading isHexDig r + 1),
            r.drop (countLeading isHexDig r + 1))
    else none

/-- Matcher for `\n{3,}` (step 5): a maximal run of at least 3 newlines. -/
def nl3M (l : List Char) : Option (List Char × List Char) :=
  if 3 ≤ countLeading (fun c => c = '\n') l then
    some (List.replicate (countLeading (fun c => c = '\n') l) '\n',
          l.drop (countLeading (fun c => c = '\n') l))
  else none

/-- re.sub: scan left to right, replace each leftmost match and resume
after it (the guard is always satisfied by the matchers above, which
consume at least one character). -/
def reSub (m : List Char → Option (List Char × List Char))
    (repl : List Char → List Char) : List Char → List Char
  | [] => []
  | c :: cs =>
    match m (c :: cs) with
    | some (mat, rest) =>
      if _h : rest.length ≤ cs.length then repl mat ++ reSub m repl rest
      else c :: reSub m repl cs
    | none => c :: reSub m repl cs
termination_by l => l.length
decreasing_by
  all_goals (simp only [List.length_cons]; omega)

def widthLit : List Char := "width=\"".toList

/-- Decimal value of a digit run. -/
def digitsNum (ds : List Char) : Nat :=
  ds.foldl (fun a c => a * 10 + (c.toNat - 48)) 0

/-- One attempt of re.search(r'width="(\d+)"') at the current position. -/
def widthMatchAt (l : List Char) : Option Nat :=
  (eatL widthLit l).bind fun r =>
    if 1 ≤ countLeading Char.isDigit r ∧
        r.getD (countLeading Char.isDigit r) ' ' = '"' then
      some (digitsNum (r.take (countLeading Char.isDigit r)))
    else none

/-- re.search(r'width="(\d+)"'): first match anywhere, parsed as a Nat. -/
def searchWidth : List Char → Option Nat
  | [] => none
  | c :: cs =>
    match widthMatchAt (c :: cs) with
    | some w => some w
    | none => searchWidth cs

/-- Decimal digit character. -/
def digCh (d : Nat) : Char := Char.ofNat (48 + d)

/-- Fuelled decimal printer (str() of a non-negative int). -/
def natDigsF : Nat → Nat → List Char
  | 0, _ => []
  | fuel + 1, n => if n < 10 then [digCh n] else natDigsF fuel (n / 10) ++ [digCh (n % 10)]

/-- Python str() of a Nat. -/
def natDigs (n : Nat) : List Char := natDigsF (n + 1) n

/-- Python str() of an int. -/
def intDigs (i : Int) : List Char :=
  if i < 0 then '-' :: natDigs i.natAbs else natDigs i.natAbs

/-- One stop element line, as generate_svg and render_text_svg format it. -/
def stopLine (st : GradientStop) : List Char :=
  "      <stop offset=\"".toList ++ intDigs st.offset_percent ++
    "%\" stop-color=\"".toList ++ st.color.toList ++ "\"/>".toList

/-- Python "\n".join. -/
def joinNl : List (List Char) → List Char
  | [] => []
  | [x] => x
  | x :: xs => x ++ '\n' :: joinNl xs

/-- The injected defs block of render_text_svg, with the gradient axis in
absolute document coordinates 0..w and gradientUnits="userSpaceOnUse". -/
def gradientDef (gid : String) (w : Nat) (stops : List GradientStop) : List Char :=
  "  <defs>\n    <linearGradient id=\"".toList ++ gid.toList ++
  "\" x1=\"0\" y1=\"0\" x2=\"".toList ++ natDigs w ++
  "\" y2=\"0\" gradientUnits=\"userSpaceOnUse\">\n".toList ++
  joinNl (stops.map stopLine) ++
  "\n    </linearGradient>\n  </defs>".toList

/-- The replacement fill reference style="fill:url(#gid)". -/
def fillUrl (gid : String) : List Char :=
  "style=\"fill:url(#".toList ++ gid.toList ++ ")\"".toList

/-- Step 1: strip the black background rects. -/
def pass1 : List Char → List Char := reSub bgRectM (fun _ => [])

/-- Step 2: inject the gradient definition after the opening svg tag. -/
def pass2 (gid : String) (w : Nat) (stops : List GradientStop) : List Char → List Char :=
  reSub svgTagM (fun mat => mat ++ '\n' :: gradientDef gid w stops)

/-- Step 3: redirect every hex fill to the gradient reference. -/
def pass3 (gid : String) : List Char → List Char :=
  reSub fillHexM (fun _ => fillUrl gid)

/-- Step 4: strip the optional backdrop rect. -/
def pass4 : List Char → List Char := reSub backdropM (fun _ => [])

/-- Step 5: collapse runs of 3 or more newlines to two. -/
def pass5 : List Char → List Char := reSub nl3M (fun _ => ['\n', '\n'])

/-- The SVG transformation part of render_text_svg (source lines 798-853):
extract the declared width from the raw engine output (default 100), then
apply the five rewriting steps in order. -/
def transform_svg (svg : String) (gid : String) (stops : List GradientStop) : String :=
  String.mk (pass5 (pass4 (pass3 gid
    (pass2 gid ((searchWidth svg.toList).getD 100) stops (pass1 svg.toList)))))

/-- Outcome of render_text_svg. -/
inductive SvgOutcome
  | ok (svg : String)
  | vErr (e : VErr)
  | rErr (e : RErr)
deriving DecidableEq, Repr

/-- Argument vector of the toilet SVG-export invocation. -/
def toiletSvgCmd (font text : String) : List String :=
  ["toilet", "-f", font, "-E", "svg", "--", text]

/-- render_text_svg (source lines 717-853): validate text then font, then
run toilet in SVG export mode (no fallback engine), then transform the
output.  The second component records every invocation performed. -/
def render_text_svg (env : Env) (text font gid : String) (stops : List GradientStop) :
    SvgOutcome × List (List String) :=
  if text = "" then (.vErr .emptyText, [])
  else if 1000 < text.length then (.vErr .tooLongText, [])
  else if !fontNameMatch font then (.vErr (.badFont font), [])
  else
    match env.run (toiletSvgCmd font text) with
    | .success out => (.ok (transform_svg out gid stops), [toiletSvgCmd font text])
    | .fileNotFound => (.rErr .toiletMissing, [toiletSvgCmd font text])
    | .calledProcessError => (.rErr .toiletFailed, [toiletSvgCmd font text])
    | .timeoutExpired => (.rErr .svgTimeout, [toiletSvgCmd font text])

/-- C8: evaluation of the code at the failing input.  The font
"banner3\n" ends in a newline, a character outside the allow-list of
letters, digits, hyphen and underscore; the claim requires it to be
rejected with no subprocess call, but because the regex dollar anchor of
`^[a-zA-Z0-9_-]+$` also matches just before a trailing newline, both
render_text_grid and render_text_svg accept the font and perform a
subprocess invocation. -/
theorem font_validation_newline_bug :
    ("banner3\n".toList.all isFontChar = false) ∧
    (render_text_grid envNF "Hi" "banner3\n").2 ≠ [] ∧
    (render_text_svg envNF "Hi" "banner3\n" "headerGradient" []).2 ≠ [] := by
  refine ⟨by decide, by decide, by decide⟩

/-! ## Machinery for reasoning about the rewriter on expected-shape documents -/

/-- Boolean list-prefix test. -/
def lpre : List Char → List Char → Bool
  | [], _ => true
  | _ :: _, [] => false
  | p :: ps, c :: cs => p = c && lpre ps cs

/-- Number of positions at which pat occurs (empty pat never counts). -/
def countSub (pat : List Char) : List Char → Nat
  | [] => 0
  | c :: cs => (if lpre pat (c :: cs) = true then 1 else 0) + countSub pat cs

/-- Check a predicate on every nonempty suffix. -/
def allSuffix (p : List Char → Bool) : List Char → Bool
  | [] => true
  | c :: cs => p (c :: cs) && allSuffix p cs

/-- Neither string is a prefix of the other, so a literal match at this
position fails within the present characters, whatever follows them. -/
def failExtB (lit s : List Char) : Bool := !lpre lit s && !lpre s lit

theorem allSuffix_spec {p : List Char → Bool} {l : List Char} (h : allSuffix p l = true) :
    ∀ s, s ≠ [] → s.IsSuffix l → p s = true := by
  induction l with
  | nil =>
    intro s hne hs
    exact absurd (List.suffix_nil.mp hs) hne
  | cons c cs ih =>
    intro s hne hs
    rw [show allSuffix p (c :: cs) = (p (c :: cs) && allSuffix p cs) from rfl,
      Bool.and_eq_true] at h
    rcases List.suffix_cons_iff.mp hs with rfl | hs'
    · exact h.1
    · exact ih h.2 s hne hs'

theorem lpre_self_append (pat l : List Char) : lpre pat (pat ++ l) = true := by
  induction pat with
  | nil => rfl
  | cons p ps ih => simp [lpre, ih]

theorem lpre_ext_false {pat s : List Char} (h1 : lpre pat s = false)
    (h2 : lpre s pat = false) (t : List Char) : lpre pat (s ++ t) = false := by
  induction pat generalizing s with
  | nil => simp [lpre] at h1
  | cons p ps ih =>
    cases s with
    | nil => simp [lpre] at h2
    | cons c cs =>
      rw [List.cons_append]
      show (decide (p = c) && lpre ps (cs ++ t)) = false
      by_cases hpc : p = c
      · subst hpc
        rw [show lpre (p :: ps) (p :: cs) = lpre ps cs from by simp [lpre]] at h1
        rw [show lpre (p :: cs) (p :: ps) = lpre cs ps from by simp [lpre]] at h2
        simp [ih h1 h2]
      · simp [hpc]

theorem eatL_none_ext {lit s : List Char} (h1 : lpre lit s = false)
    (h2 : lpre s lit = false) (t : List Char) : eatL lit (s ++ t) = none := by
  induction lit generalizing s with
  | nil => simp [lpre] at h1
  | cons p ps ih =>
    cases s with
    | nil => simp [lpre] at h2
    | cons c cs =>
      rw [List.cons_append]
      show (if p = c then eatL ps (cs ++ t) else none) = none
      by_cases hpc : p = c
      · subst hpc
        rw [show lpre (p :: ps) (p :: cs) = lpre ps cs from by simp [lpre]] at h1
        rw [show lpre (p :: cs) (p :: ps) = lpre cs ps from by simp [lpre]] at h2
        rw [if_pos rfl]
        exact ih h1 h2
      · rw [if_neg hpc]

theorem reSub_nil (m : List Char → Option (List Char × List Char))
    (r : List Char → List Char) : reSub m r [] = [] := by
  rw [reSub.eq_def]

theorem reSub_cons_none {m : List Char → Option (List Char × List Char)}
    {r : List Char → List Char} {c : Char} {cs : List Char} (h : m (c :: cs) = none) :
    reSub m r (c :: cs) = c :: reSub m r cs := by
  rw [reSub.eq_def]
  simp [h]

theorem reSub_cons_some {m : List Char → Option (List Char × List Char)}
    {r : List Char → List Char} {c : Char} {cs mat rest : List Char}
    (h : m (c :: cs) = some (mat, rest)) (hlen : rest.length ≤ cs.length) :
    reSub m r (c :: cs) = r mat ++ reSub m r rest := by
  rw [reSub.eq_def]
  simp [h, hlen]

theorem reSub_hit {m : List Char → Option (List Char × List Char)}
    {r : List Char → List Char} {l mat rest : List Char}
    (h : m l = some (mat, rest)) (hlen : rest.length + 1 ≤ l.length) :
    reSub m r l = r mat ++ reSub m r rest := by
  cases l with
  | nil => simp at hlen
  | cons c cs =>
    exact reSub_cons_some h (by simpa [List.length_cons] using Nat.lt_succ_iff.mp hlen)

theorem reSub_seg {m : List Char → Option (List Char × List Char)}
    {r : List Char → List Char} (seg t : List Char)
    (H : ∀ s, s ≠ [] → s.IsSuffix seg → m (s ++ t) = none) :
    reSub m r (seg ++ t) = seg ++ reSub m r t := by
  induction seg with
  | nil => simp
  | cons c cs ih =>
    have h' : m (c :: (cs ++ t)) = none := H (c :: cs) (by simp) List.suffix_rfl
    rw [List.cons_append, reSub_cons_none h']
    rw [ih (fun s hne hs => H s hne (hs.trans (List.suffix_cons c cs)))]
    rfl

theorem bgRectM_none_ext {s : List Char} (h1 : lpre rectLit s = false)
    (h2 : lpre s rectLit = false) (t : List Char) : bgRectM (s ++ t) = none := by
  unfold bgRectM
  rw [eatL_none_ext h1 h2 t, Option.none_bind]

theorem backdropM_none_ext {s : List Char} (h1 : lpre rectLit s = false)
    (h2 : lpre s rectLit = false) (t : List Char) : backdropM (s ++ t) = none := by
  unfold backdropM
  rw [eatL_none_ext h1 h2 t, Option.none_bind]

theorem svgTagM_none_ext {s : List Char} (h1 : lpre svgLit s = false)
    (h2 : lpre s svgLit = false) (t : List Char) : svgTagM (s ++ t) = none := by
  unfold svgTagM
  rw [eatL_none_ext h1 h2 t, Option.none_bind]

theorem fillHexM_none_ext {s : List Char} (h1 : lpre fillLit s = false)
    (h2 : lpre s fillLit = false) (t : List Char) : fillHexM (s ++ t) = none := by
  unfold fillHexM
  rw [eatL_none_ext h1 h2 t, Option.none_bind]

theorem widthMatchAt_none_ext {s : List Char} (h1 : lpre widthLit s = false)
    (h2 : lpre s widthLit = false) (t : List Char) : widthMatchAt (s ++ t) = none := by
  unfold widthMatchAt
  rw [eatL_none_ext h1 h2 t, Option.none_bind]

theorem countLeading_cons_false {p : Char → Bool} {c : Char} (h : p c = false)
    (cs : List Char) : countLeading p (c :: cs) = 0 := by
  simp [countLeading, h]

theorem nl3M_cons_ne {c : Char} (hc : c ≠ '\n') (cs : List Char) :
    nl3M (c :: cs) = none := by
  unfold nl3M
  rw [countLeading_cons_false (by simp [hc]) cs]
  rfl

theorem countLeading_append_all {p : Char → Bool} {ds : List Char}
    (h : ∀ c ∈ ds, p c = true) (l : List Char) :
    countLeading p (ds ++ l) = ds.length + countLeading p l := by
  induction ds with
  | nil => simp
  | cons d ds ih =>
    rw [List.cons_append,
      show countLeading p (d :: (ds ++ l)) =
        (if p d then countLeading p (ds ++ l) + 1 else 0) from rfl,
      if_pos (h d (by simp)), ih (fun c hc => h c (by simp [hc]))]
    simp only [List.length_cons]
    omega

theorem lpre_head_ne {p c : Char} {ps cs : List Char} (h : p ≠ c) :
    lpre (p :: ps) (c :: cs) = false := by
  simp [lpre, h]

theorem countSub_cons_ne {pat : List Char} {h c : Char} {cs : List Char}
    (hh : pat.head? = some h) (hne : c ≠ h) :
    countSub pat (c :: cs) = countSub pat cs := by
  cases pat with
  | nil => simp at hh
  | cons p ps =>
    have hp : p = h := by simpa using hh
    have hpc : p ≠ c := by
      rw [hp]
      exact fun hcon => hne hcon.symm
    rw [show countSub (p :: ps) (c :: cs) =
      (if lpre (p :: ps) (c :: cs) = true then 1 else 0) + countSub (p :: ps) cs from rfl]
    rw [lpre_head_ne hpc]
    simp

theorem countSub_no_head {pat : List Char} {h : Char} (hh : pat.head? = some h)
    {l : List Char} (hl : ∀ c ∈ l, c ≠ h) : countSub pat l = 0 := by
  induction l with
  | nil => rfl
  | cons c cs ih =>
    rw [countSub_cons_ne hh (hl c (by simp))]
    exact ih (fun c hc => hl c (by simp [hc]))

theorem countSub_seg {pat : List Char} (seg t : List Char)
    (hseg : allSuffix (failExtB pat) seg = true) :
    countSub pat (seg ++ t) = countSub pat t := by
  induction seg with
  | nil => simp
  | cons c cs ih =>
    have hp := allSuffix_spec hseg (c :: cs) (by simp) List.suffix_rfl
    unfold failExtB at hp
    rw [Bool.and_eq_true, Bool.not_eq_true', Bool.not_eq_true'] at hp
    have hfalse : lpre pat ((c :: cs) ++ t) = false := lpre_ext_false hp.1 hp.2 t
    rw [List.cons_append] at hfalse
    rw [List.cons_append,
      show countSub pat (c :: (cs ++ t)) =
        (if lpre pat (c :: (cs ++ t)) = true then 1 else 0) + countSub pat (cs ++ t)
        from rfl,
      hfalse]
    simp only [Bool.false_eq_true, if_false, Nat.zero_add]
    apply ih
    have htl := hseg
    rw [show allSuffix (failExtB pat) (c :: cs) =
      (failExtB pat (c :: cs) && allSuffix (failExtB pat) cs) from rfl,
      Bool.and_eq_true] at htl
    exact htl.2

theorem countSub_digits {pat : List Char} {h : Char} (hh : pat.head? = some h)
    (hd : h.isDigit = false) {ds : List Char} (hds : ∀ c ∈ ds, c.isDigit = true)
    (t : List Char) : countSub pat (ds ++ t) = countSub pat t := by
  induction ds with
  | nil => simp
  | cons d ds ih =>
    have hdne : d ≠ h := by
      intro hcon
      rw [hcon] at hds
      exact absurd (hds h (by simp)) (by simp [hd])
    rw [List.cons_append, countSub_cons_ne hh hdne]
    exact ih (fun c hc => hds c (by simp [hc]))

theorem lpre_nl_indep {pat : List Char} (hnl : '\n' ∉ pat) (a b : List Char) :
    lpre pat (a ++ '\n' :: b) = lpre pat (a ++ ['\n']) := by
  induction pat generalizing a with
  | nil => rfl
  | cons p ps ih =>
    have hp : p ≠ '\n' := fun hcon => hnl (by simp [hcon])
    cases a with
    | nil =>
      rw [List.nil_append, List.nil_append, lpre_head_ne hp, lpre_head_ne hp]
    | cons c a' =>
      rw [List.cons_append, List.cons_append]
      show (decide (p = c) && lpre ps (a' ++ '\n' :: b)) =
        (decide (p = c) && lpre ps (a' ++ ['\n']))
      rw [ih (fun hcon => hnl (by simp [hcon])) a']

theorem countSub_line {pat : List Char} (hpat : pat ≠ []) (hnl : '\n' ∉ pat)
    (body rest : List Char) :
    countSub pat (body ++ '\n' :: rest) =
      countSub pat (body ++ ['\n']) + countSub pat rest := by
  induction body with
  | nil =>
    cases pat with
    | nil => exact absurd rfl hpat
    | cons p ps =>
      have hp : p ≠ '\n' := fun hcon => hnl (by simp [hcon])
      rw [List.nil_append, List.nil_append,
        show countSub (p :: ps) ('\n' :: rest) =
          (if lpre (p :: ps) ('\n' :: rest) = true then 1 else 0) +
            countSub (p :: ps) rest from rfl,
        lpre_head_ne hp]
      rw [show countSub (p :: ps) ['\n'] =
        (if lpre (p :: ps) ['\n'] = true then 1 else 0) + countSub (p :: ps) [] from rfl,
        lpre_head_ne hp]
      simp [countSub]
  | cons c body' ih =>
    rw [List.cons_append, List.cons_append,
      show countSub pat (c :: (body' ++ '\n' :: rest)) =
        (if lpre pat (c :: (body' ++ '\n' :: rest)) = true then 1 else 0) +
          countSub pat (body' ++ '\n' :: rest) from rfl,
      show countSub pat (c :: (body' ++ ['\n'])) =
        (if lpre pat (c :: (body' ++ ['\n'])) = true then 1 else 0) +
          countSub pat (body' ++ ['\n']) from rfl]
    have hind : lpre pat (c :: (body' ++ '\n' :: rest)) =
        lpre pat (c :: (body' ++ ['\n'])) := by
      have := lpre_nl_indep hnl (c :: body') rest
      rw [List.cons_append] at this
      exact this
    rw [hind, ih]
    omega

theorem countSub_flatten {pat : List Char} (hpat : pat ≠ []) (hnl : '\n' ∉ pat)
    (bodies : List (List Char)) :
    countSub pat ((bodies.map (fun b => b ++ ['\n'])).flatten) =
      (bodies.map (fun b => countSub pat (b ++ ['\n']))).sum := by
  induction bodies with
  | nil => rfl
  | cons b bs ih =>
    rw [List.map_cons, List.flatten_cons, List.map_cons, List.sum_cons,
      show (b ++ ['\n']) ++ (bs.map (fun b => b ++ ['\n'])).flatten =
        b ++ '\n' :: (bs.map (fun b => b ++ ['\n'])).flatten from by
          rw [List.append_assoc]; rfl,
      countSub_line hpat hnl, ih]

theorem searchWidth_cons_none {c : Char} {cs : List Char}
    (h : widthMatchAt (c :: cs) = none) : searchWidth (c :: cs) = searchWidth cs := by
  rw [show searchWidth (c :: cs) =
    (match widthMatchAt (c :: cs) with
     | some w => some w
     | none => searchWidth cs) from rfl, h]

theorem searchWidth_seg (seg t : List Char)
    (H : ∀ s, s ≠ [] → s.IsSuffix seg → widthMatchAt (s ++ t) = none) :
    searchWidth (seg ++ t) = searchWidth t := by
  induction seg with
  | nil => simp
  | cons c cs ih =>
    have h' : widthMatchAt (c :: (cs ++ t)) = none :=
      H (c :: cs) (by simp) List.suffix_rfl
    rw [List.cons_append, searchWidth_cons_none h']
    exact ih (fun s hne hs => H s hne (hs.trans (List.suffix_cons c cs)))

theorem searchWidth_seg_of_allSuffix (seg t : List Char)
    (hseg : allSuffix (failExtB widthLit) seg = true) :
    searchWidth (seg ++ t) = searchWidth t := by
  apply searchWidth_seg
  intro s hne hs
  have hp := allSuffix_spec hseg s hne hs
  unfold failExtB at hp
  rw [Bool.and_eq_true, Bool.not_eq_true', Bool.not_eq_true'] at hp
  exact widthMatchAt_none_ext hp.1 hp.2 t

theorem eatL_self_append (lit l : List Char) : eatL lit (lit ++ l) = some l := by
  induction lit with
  | nil => rfl
  | cons p ps ih => simp [eatL, ih]

theorem nl3M_none_of_le {l : List Char}
    (h : countLeading (fun c => c = '\n') l ≤ 2) : nl3M l = none := by
  unfold nl3M
  rw [if_neg (by omega)]

/-- No match of m starts inside seg, whatever follows seg. -/
def SegNone {α : Type} (m : List Char → Option α) (seg : List Char) : Prop :=
  ∀ s, s ≠ [] → s.IsSuffix seg → ∀ u, m (s ++ u) = none

theorem suffix_append_cases {s b : List Char} :
    ∀ a : List Char, s.IsSuffix (a ++ b) →
      s.IsSuffix b ∨ ∃ s', s'.IsSuffix a ∧ s = s' ++ b
  | [], h => Or.inl h
  | c :: a', h => by
    rcases List.suffix_cons_iff.mp h with heq | h'
    · exact Or.inr ⟨c :: a', List.suffix_rfl, heq⟩
    · rcases suffix_append_cases a' h' with h1 | ⟨s', hs', heq⟩
      · exact Or.inl h1
      · exact Or.inr ⟨s', hs'.trans (List.suffix_cons c a'), heq⟩

theorem SegNone.append {α : Type} {m : List Char → Option α} {a b : List Char}
    (ha : SegNone m a) (hb : SegNone m b) : SegNone m (a ++ b) := by
  intro s hne hs u
  rcases suffix_append_cases a hs with h1 | ⟨s', hs', rfl⟩
  · exact hb s hne h1 u
  · cases hsemp : s' with
    | nil =>
      subst hsemp
      exact hb b (by simpa using hne) List.suffix_rfl u
    | cons c cs =>
      subst hsemp
      rw [List.append_assoc]
      exact ha (c :: cs) (by simp) hs' (b ++ u)

theorem segNone_of_allSuffix {α : Type} (lit : List Char)
    {M : List Char → Option α}
    (hM : ∀ s t, lpre lit s = false → lpre s lit = false → M (s ++ t) = none)
    (seg : List Char) (hseg : allSuffix (failExtB lit) seg = true) :
    SegNone M seg := by
  intro s hne hs u
  have hp := allSuffix_spec hseg s hne hs
  unfold failExtB at hp
  rw [Bool.and_eq_true, Bool.not_eq_true', Bool.not_eq_true'] at hp
  exact hM s u hp.1 hp.2

theorem segNone_digits {α : Type} (lit : List Char) (h : Char)
    (hh : lit.head? = some h) (hd : h.isDigit = false)
    {M : List Char → Option α}
    (hM : ∀ s t, lpre lit s = false → lpre s lit = false → M (s ++ t) = none)
    {ds : List Char} (hds : ∀ c ∈ ds, c.isDigit = true) :
    SegNone M ds := by
  intro s hne hs u
  cases s with
  | nil => exact absurd rfl hne
  | cons a s' =>
    have ha : a.isDigit = true := hds a (hs.subset (by simp))
    have hane : h ≠ a := by
      intro hcon
      rw [hcon, ha] at hd
      simp at hd
    cases lit with
    | nil => simp at hh
    | cons p ps =>
      have hp : p = h := by simpa using hh
      exact hM (a :: s') u (lpre_head_ne (by rw [hp]; exact hane))
        (lpre_head_ne (by rw [hp]; exact fun hcon => hane hcon.symm))

theorem reSub_segNone {m : List Char → Option (List Char × List Char)}
    {r : List Char → List Char} {seg : List Char} (h : SegNone m seg) {t : List Char} :
    reSub m r (seg ++ t) = seg ++ reSub m r t :=
  reSub_seg seg t (fun s hs hsuf => h s hs hsuf t)

theorem searchWidth_segNone {seg : List Char} (h : SegNone widthMatchAt seg)
    {t : List Char} : searchWidth (seg ++ t) = searchWidth t :=
  searchWidth_seg seg t (fun s hs hsuf => h s hs hsuf t)

/-- Decidable condition for a nl3M match to fail whatever follows: among
the first three characters present there is a non-newline. -/
def failNl3B : List Char → Bool
  | c1 :: c2 :: c3 :: _ => !(c1 = '\n') || !(c2 = '\n') || !(c3 = '\n')
  | l => l.any (fun c => !(c = '\n'))

theorem nl3M_fail_ext {s : List Char} (h : failNl3B s = true) (t : List Char) :
    nl3M (s ++ t) = none := by
  apply nl3M_none_of_le
  cases s with
  | nil => simp [failNl3B] at h
  | cons c1 s1 =>
    cases s1 with
    | nil =>
      by_cases hc1 : c1 = '\n'
      · exfalso
        simp [failNl3B, hc1] at h
      · simp [countLeading, hc1]
    | cons c2 s2 =>
      cases s2 with
      | nil =>
        by_cases hc1 : c1 = '\n'
        · by_cases hc2 : c2 = '\n'
          · exfalso
            simp [failNl3B, hc1, hc2] at h
          · simp [countLeading, hc1, hc2]
        · simp [countLeading, hc1]
      | cons c3 s3 =>
        by_cases hc1 : c1 = '\n'
        · by_cases hc2 : c2 = '\n'
          · by_cases hc3 : c3 = '\n'
            · exfalso
              simp [failNl3B, hc1, hc2, hc3] at h
            · simp [countLeading, hc1, hc2, hc3]
          · simp [countLeading, hc1, hc2]
        · simp [countLeading, hc1]

theorem segNone_nl3_of_allSuffix {seg : List Char}
    (hseg : allSuffix failNl3B seg = true) : SegNone nl3M seg := by
  intro s hne hs u
  exact nl3M_fail_ext (allSuffix_spec hseg s hne hs) u

theorem segNone_nl3_digits {ds : List Char} (hds : ∀ c ∈ ds, c.isDigit = true) :
    SegNone nl3M ds := by
  intro s hne hs u
  cases s with
  | nil => exact absurd rfl hne
  | cons a s' =>
    have ha : a.isDigit = true := hds a (hs.subset (by simp))
    have hane : a ≠ '\n' := by
      intro hcon
      rw [hcon] at ha
      exact absurd ha (by decide)
    rw [List.cons_append]
    exact nl3M_cons_ne hane (s' ++ u)

/-- lpre is stable under extension once it succeeded. -/
theorem lpre_true_ext {pat s : List Char} (h : lpre pat s = true) (t : List Char) :
    lpre pat (s ++ t) = true := by
  induction pat generalizing s with
  | nil => rfl
  | cons p ps ih =>
    cases s with
    | nil => simp [lpre] at h
    | cons c cs =>
      rw [show lpre (p :: ps) (c :: cs) = (decide (p = c) && lpre ps cs) from rfl,
        Bool.and_eq_true] at h
      rw [List.cons_append]
      show (decide (p = c) && lpre ps (cs ++ t)) = true
      rw [Bool.and_eq_true]
      exact ⟨h.1, ih h.2⟩

/-- Decidable per-suffix condition under which counting distributes over
an append: at each position the match outcome does not depend on what
follows the chunk. -/
def countOkB (pat s : List Char) : Bool := lpre pat s || failExtB pat s

theorem countSub_chunk {pat : List Char} (chunk t : List Char)
    (hch : allSuffix (countOkB pat) chunk = true) :
    countSub pat (chunk ++ t) = countSub pat chunk + countSub pat t := by
  induction chunk with
  | nil => simp [countSub]
  | cons c cs ih =>
    have hp := allSuffix_spec hch (c :: cs) (by simp) List.suffix_rfl
    have hstable : lpre pat ((c :: cs) ++ t) = lpre pat (c :: cs) := by
      unfold countOkB at hp
      rw [Bool.or_eq_true] at hp
      rcases hp with h1 | h2
      · rw [h1, lpre_true_ext h1]
      · unfold failExtB at h2
        rw [Bool.and_eq_true, Bool.not_eq_true', Bool.not_eq_true'] at h2
        rw [h2.1, lpre_ext_false h2.1 h2.2]
    rw [List.cons_append,
      show countSub pat (c :: (cs ++ t)) =
        (if lpre pat (c :: (cs ++ t)) = true then 1 else 0) + countSub pat (cs ++ t)
        from rfl,
      show countSub pat (c :: cs) =
        (if lpre pat (c :: cs) = true then 1 else 0) + countSub pat cs from rfl]
    rw [show lpre pat (c :: (cs ++ t)) = lpre pat ((c :: cs) ++ t) from by
      rw [List.cons_append], hstable]
    have htl : allSuffix (countOkB pat) cs = true := by
      have := hch
      rw [show allSuffix (countOkB pat) (c :: cs) =
        (countOkB pat (c :: cs) && allSuffix (countOkB pat) cs) from rfl,
        Bool.and_eq_true] at this
      exact this.2
    rw [ih htl]
    omega

theorem countSub_pos {pat : List Char} (hpat : pat ≠ []) (a b : List Char) :
    1 ≤ countSub pat (a ++ pat ++ b) := by
  induction a with
  | nil =>
    rw [List.nil_append]
    cases hp : pat ++ b with
    | nil =>
      rcases List.append_eq_nil.mp hp with ⟨h1, _⟩
      exact absurd h1 hpat
    | cons c cs =>
      rw [show countSub pat (c :: cs) =
        (if lpre pat (c :: cs) = true then 1 else 0) + countSub pat cs from rfl]
      rw [← hp, lpre_self_append]
      simp
  | cons c a' ih =>
    rw [List.cons_append, List.cons_append,
      show countSub pat (c :: ((a' ++ pat) ++ b)) =
        (if lpre pat (c :: ((a' ++ pat) ++ b)) = true then 1 else 0) +
          countSub pat ((a' ++ pat) ++ b) from rfl]
    omega

/-- A prefix pattern occurs at least as often as its extension. -/
theorem lpre_of_append {p q s : List Char} (h : lpre (p ++ q) s = true) :
    lpre p s = true := by
  induction p generalizing s with
  | nil => rfl
  | cons a p' ih =>
    cases s with
    | nil => simp [lpre] at h
    | cons c cs =>
      rw [List.cons_append] at h
      rw [show lpre (a :: (p' ++ q)) (c :: cs) =
        (decide (a = c) && lpre (p' ++ q) cs) from rfl, Bool.and_eq_true] at h
      show (decide (a = c) && lpre p' cs) = true
      rw [Bool.and_eq_true]
      exact ⟨h.1, ih h.2⟩

theorem countSub_le_of_append (p q l : List Char) :
    countSub (p ++ q) l ≤ countSub p l := by
  induction l with
  | nil => simp [countSub]
  | cons c cs ih =>
    rw [show countSub (p ++ q) (c :: cs) =
      (if lpre (p ++ q) (c :: cs) = true then 1 else 0) + countSub (p ++ q) cs from rfl,
      show countSub p (c :: cs) =
        (if lpre p (c :: cs) = true then 1 else 0) + countSub p cs from rfl]
    by_cases h : lpre (p ++ q) (c :: cs) = true
    · rw [h, lpre_of_append h]
      omega
    · rw [Bool.not_eq_true] at h
      rw [h]
      simp only [Bool.false_eq_true, if_false, Nat.zero_add]
      split <;> omega

theorem digCh_isDigit {d : Nat} (h : d < 10) : (digCh d).isDigit = true := by
  interval_cases d <;> decide

theorem natDigsF_digits : ∀ fuel n, ∀ c ∈ natDigsF fuel n, c.isDigit = true := by
  intro fuel
  induction fuel with
  | zero =>
    intro n c hc
    simp [natDigsF] at hc
  | succ f ih =>
    intro n c hc
    unfold natDigsF at hc
    by_cases hn : n < 10
    · rw [if_pos hn] at hc
      have hceq : c = digCh n := by simpa using hc
      rw [hceq]
      exact digCh_isDigit hn
    · rw [if_neg hn] at hc
      rcases List.mem_append.mp hc with h1 | h2
      · exact ih (n / 10) c h1
      · have hceq : c = digCh (n % 10) := by simpa using h2
        rw [hceq]
        exact digCh_isDigit (Nat.mod_lt _ (by norm_num))

theorem natDigs_digits (n : Nat) : ∀ c ∈ natDigs n, c.isDigit = true :=
  natDigsF_digits (n + 1) n

/-! ## The expected-shape native-export document family

The rewriter claim quantifies over engine native-export documents of the
expected shape.  That shape is modelled here: an opening svg tag with an
optional decimal width attribute, then any sequence of background rect
cells (the opaque fills toilet emits per character cell) and glyph
elements whose flat-gray fill uses either the 3- or the 6-digit hex
shorthand, then the closing tag.  Each element is one '\n'-terminated
line. -/

/-- The SWEET_DRACULA preset stops (source lines 211-219). -/
def SWEET_DRACULA : List GradientStop :=
  [⟨"#ff5555", 0⟩, ⟨"#ffb86c", 16⟩, ⟨"#f1fa8c", 33⟩, ⟨"#50fa7b", 50⟩,
   ⟨"#8be9fd", 66⟩, ⟨"#bd93f9", 83⟩, ⟨"#ff79c6", 100⟩]

/-- Flat-gray shorthand used by a glyph: #aaa or #aaaaaa. -/
inductive GlyphKind
  | short
  | long
deriving DecidableEq, Repr

/-- One body line of the native export: a background cell or a glyph. -/
inductive RawLine
  | bg
  | glyph (g : GlyphKind)
deriving DecidableEq, Repr

def bgLineB : List Char := "<rect x=\"0\" y=\"0\" style=\"fill:#000\"/>".toList

def glyphLineB : GlyphKind → List Char
  | .short => "<path d=\"m0 0h8v16h-8z\" style=\"fill:#aaa\"/>".toList
  | .long => "<path d=\"m0 0h8v16h-8z\" style=\"fill:#aaaaaa\"/>".toList

def rawBody : RawLine → List Char
  | .bg => bgLineB
  | .glyph g => glyphLineB g

/-- The opening svg tag, with or without the width attribute. -/
def svgTagB : Option (List Char) → List Char
  | some ds => "<svg width=\"".toList ++ ds ++
      "\" height=\"30\" xmlns=\"http://www.w3.org/2000/svg\">".toList
  | none => "<svg xmlns=\"http://www.w3.org/2000/svg\">".toList

def bodyChunk (body : List RawLine) : List Char :=
  ((body.map rawBody).map (fun b => b ++ ['\n'])).flatten

/-- The rendered expected-shape document. -/
def renderDoc (wds : Option (List Char)) (body : List RawLine) : List Char :=
  svgTagB wds ++ '\n' :: (bodyChunk body ++ "</svg>\n".toList)

/-- The width the rewriter should extract: the declared decimal width, or
the fixed default 100 when no width attribute is present. -/
def docWidth : Option (List Char) → Nat
  | some ds => digitsNum ds
  | none => 100

/-- Well-formed width field: a nonempty run of decimal digits. -/
def WFW : Option (List Char) → Prop
  | some ds => ds ≠ [] ∧ ∀ c ∈ ds, c.isDigit = true
  | none => True

/-- A glyph line after the rewrite: its fill redirected to the gradient. -/
def glyphR : List Char :=
  "<path d=\"m0 0h8v16h-8z\" ".toList ++ fillUrl "headerGradient" ++ "/>".toList

def rewriteLine : RawLine → Option (List Char)
  | .bg => none
  | .glyph _ => some glyphR

def outBody (body : List RawLine) : List Char :=
  ((body.filterMap rewriteLine).map (fun b => b ++ ['\n'])).flatten

def lgTagPre : List Char :=
  "<linearGradient id=\"headerGradient\" x1=\"0\" y1=\"0\" x2=\"".toList

def lgTagPost : List Char :=
  "\" y2=\"0\" gradientUnits=\"userSpaceOnUse\">".toList

/-- The full injected linearGradient opening tag for extracted width w:
axis from 0 to w in absolute document coordinates, userSpaceOnUse units. -/
def lgOpenTag (w : Nat) : List Char := lgTagPre ++ natDigs w ++ lgTagPost

def gdefA : List Char := "  <defs>\n    ".toList

def gdefZ : List Char :=
  '\n' :: (joinNl (SWEET_DRACULA.map stopLine) ++
    "\n    </linearGradient>\n  </defs>".toList)

theorem gradientDef_decomp (w : Nat) :
    gradientDef "headerGradient" w SWEET_DRACULA =
      gdefA ++ (lgTagPre ++ (natDigs w ++ (lgTagPost ++ gdefZ))) := by
  unfold gradientDef gdefA gdefZ lgTagPre lgTagPost
  have h1 : "  <defs>\n    <linearGradient id=\"".toList ++ "headerGradient".toList ++
      "\" x1=\"0\" y1=\"0\" x2=\"".toList =
      "  <defs>\n    ".toList ++
        ("<linearGradient id=\"headerGradient\" x1=\"0\" y1=\"0\" x2=\"".toList
          : List Char) := by decide
  have h2 : ("\" y2=\"0\" gradientUnits=\"userSpaceOnUse\">\n".toList : List Char) =
      "\" y2=\"0\" gradientUnits=\"userSpaceOnUse\">".toList ++ ['\n'] := by decide
  rw [show "  <defs>\n    <linearGradient id=\"".toList ++ "headerGradient".toList ++
      "\" x1=\"0\" y1=\"0\" x2=\"".toList ++ natDigs w ++
      "\" y2=\"0\" gradientUnits=\"userSpaceOnUse\">\n".toList ++
      joinNl (SWEET_DRACULA.map stopLine) ++
      "\n    </linearGradient>\n  </defs>".toList =
      ("  <defs>\n    <linearGradient id=\"".toList ++ "headerGradient".toList ++
        "\" x1=\"0\" y1=\"0\" x2=\"".toList) ++ (natDigs w ++
        ("\" y2=\"0\" gradientUnits=\"userSpaceOnUse\">\n".toList ++
          (joinNl (SWEET_DRACULA.map stopLine) ++
            "\n    </linearGradient>\n  </defs>".toList))) from by
    simp [List.append_assoc]]
  rw [h1, h2]
  simp [List.append_assoc]

theorem searchWidth_hit {l : List Char} {w : Nat} (h : widthMatchAt l = some w) :
    searchWidth l = some w := by
  cases l with
  | nil => simp [widthMatchAt, eatL, widthLit] at h
  | cons c cs =>
    rw [show searchWidth (c :: cs) =
      (match widthMatchAt (c :: cs) with
       | some w => some w
       | none => searchWidth cs) from rfl, h]

theorem widthMatchAt_hit (ds rest : List Char) (hne : ds ≠ [])
    (hds : ∀ c ∈ ds, c.isDigit = true) :
    widthMatchAt (widthLit ++ (ds ++ '"' :: rest)) = some (digitsNum ds) := by
  have hcl : countLeading Char.isDigit (ds ++ '"' :: rest) = ds.length := by
    rw [countLeading_append_all hds, countLeading_cons_false (by decide)]
    omega
  unfold widthMatchAt
  rw [eatL_self_append, Option.some_bind, hcl]
  rw [if_pos ⟨List.length_pos.mpr hne, by
    rw [List.getD_append_right ds ('"' :: rest) ' ' ds.length le_rfl]
    simp⟩]
  rw [show (ds ++ '"' :: rest).take ds.length = ds from List.take_left ds ('"' :: rest)]

theorem searchWidth_doc_some (ds : List Char) (body : List RawLine)
    (hne : ds ≠ []) (hds : ∀ c ∈ ds, c.isDigit = true) :
    searchWidth (renderDoc (some ds) body) = some (digitsNum ds) := by
  have hshape : renderDoc (some ds) body =
      "<svg ".toList ++ (widthLit ++ (ds ++ '"' ::
        (" height=\"30\" xmlns=\"http://www.w3.org/2000/svg\">".toList ++
          '\n' :: (bodyChunk body ++ "</svg>\n".toList)))) := by
    unfold renderDoc svgTagB
    rw [show ("<svg width=\"".toList : List Char) = "<svg ".toList ++ widthLit from by decide]
    rw [show ("\" height=\"30\" xmlns=\"http://www.w3.org/2000/svg\">".toList
        : List Char) = '"' :: " height=\"30\" xmlns=\"http://www.w3.org/2000/svg\">".toList
      from by decide]
    simp [List.append_assoc]
  rw [hshape]
  rw [searchWidth_segNone (segNone_of_allSuffix widthLit
    (fun s t h1 h2 => widthMatchAt_none_ext h1 h2 t) "<svg ".toList (by decide))]
  exact searchWidth_hit (widthMatchAt_hit ds _ hne hds)

theorem segNone_bodyChunk_width (body : List RawLine) :
    SegNone widthMatchAt (bodyChunk body) := by
  induction body with
  | nil =>
    intro s hne hs
    exact absurd (List.suffix_nil.mp hs) hne
  | cons ln rest ih =>
    have hstep : bodyChunk (ln :: rest) = (rawBody ln ++ ['\n']) ++ bodyChunk rest := by
      unfold bodyChunk
      simp
    rw [hstep]
    refine SegNone.append ?_ ih
    cases ln with
    | bg =>
      exact segNone_of_allSuffix widthLit
        (fun s t h1 h2 => widthMatchAt_none_ext h1 h2 t) _ (by decide)
    | glyph g =>
      cases g with
      | short =>
        exact segNone_of_allSuffix widthLit
          (fun s t h1 h2 => widthMatchAt_none_ext h1 h2 t) _ (by decide)
      | long =>
        exact segNone_of_allSuffix widthLit
          (fun s t h1 h2 => widthMatchAt_none_ext h1 h2 t) _ (by decide)

theorem searchWidth_doc_none (body : List RawLine) :
    searchWidth (renderDoc none body) = none := by
  have hshape : renderDoc none body =
      (svgTagB none ++ ['\n']) ++ (bodyChunk body ++ "</svg>\n".toList) := by
    unfold renderDoc
    simp [List.append_assoc]
  rw [hshape]
  rw [searchWidth_segNone (segNone_of_allSuffix widthLit
    (fun s t h1 h2 => widthMatchAt_none_ext h1 h2 t) _ (by decide))]
  rw [searchWidth_segNone (segNone_bodyChunk_width body)]
  rw [show ("</svg>\n".toList : List Char) = "</svg>\n".toList ++ [] from by simp]
  rw [searchWidth_segNone (segNone_of_allSuffix widthLit
    (fun s t h1 h2 => widthMatchAt_none_ext h1 h2 t) _ (by decide))]
  rfl

/-- The extracted width of an expected-shape document. -/
theorem extract_width (wds : Option (List Char)) (body : List RawLine) (hwf : WFW wds) :
    (searchWidth (renderDoc wds body)).getD 100 = docWidth wds := by
  cases wds with
  | none => rw [searchWidth_doc_none body]; rfl
  | some ds =>
    obtain ⟨hne, hds⟩ := hwf
    rw [searchWidth_doc_some ds body hne hds]
    rfl

/-! ## Evaluating the five passes on expected-shape documents -/

theorem digit_ne_gt {c : Char} (h : c.isDigit = true) : c ≠ '>' := by
  intro hcon
  rw [hcon] at h
  exact absurd h (by decide)

def svgWTail : List Char :=
  "\" height=\"30\" xmlns=\"http://www.w3.org/2000/svg\">".toList

theorem svgTagB_some (ds : List Char) :
    svgTagB (some ds) = "<svg width=\"".toList ++ ds ++ svgWTail := rfl

theorem gtScan_cons_ne {a : Char} (ha : a ≠ '>') (cs : List Char) :
    gtScan (a :: cs) = (gtScan cs).map (fun p => (a :: p.1, p.2)) := by
  rw [show gtScan (a :: cs) =
    (if a = '>' then some ([a], cs)
     else (gtScan cs).map (fun p => (a :: p.1, p.2))) from rfl, if_neg ha]

theorem gtScan_skip {A : List Char} (hA : ∀ c ∈ A, c ≠ '>') (l : List Char) :
    gtScan (A ++ l) = (gtScan l).map (fun p => (A ++ p.1, p.2)) := by
  induction A with
  | nil =>
    cases hg : gtScan l <;> simp [hg]
  | cons a A' ih =>
    rw [List.cons_append, gtScan_cons_ne (hA a (by simp)) (A' ++ l),
      ih (fun c hc => hA c (by simp [hc]))]
    cases hg : gtScan l <;> simp

theorem gtScan_wtail (X : List Char) : gtScan (svgWTail ++ X) = some (svgWTail, X) := rfl

theorem svgTagM_hit_some (ds X : List Char) (hds : ∀ c ∈ ds, c.isDigit = true) :
    svgTagM (svgTagB (some ds) ++ X) = some (svgTagB (some ds), X) := by
  have hshape : svgTagB (some ds) ++ X =
      svgLit ++ (" width=\"".toList ++ (ds ++ (svgWTail ++ X))) := by
    rw [svgTagB_some,
      show ("<svg width=\"".toList : List Char) = svgLit ++ " width=\"".toList
        from by decide]
    simp [List.append_assoc]
  rw [hshape]
  unfold svgTagM
  rw [eatL_self_append, Option.some_bind,
    gtScan_skip (by decide : ∀ c ∈ (" width=\"".toList : List Char), c ≠ '>'),
    gtScan_skip (fun c hc => digit_ne_gt (hds c hc)), gtScan_wtail]
  rw [svgTagB_some,
    show ("<svg width=\"".toList : List Char) = svgLit ++ " width=\"".toList
      from by decide]
  simp [List.append_assoc]

theorem svgTagM_hit_none (X : List Char) :
    svgTagM (svgTagB none ++ X) = some (svgTagB none, X) := rfl

theorem bgRectM_hit (t : List Char) :
    bgRectM ((bgLineB ++ ['\n']) ++ t) = some (bgLineB ++ ['\n'], t) := rfl

theorem fillHexM_hit_short (t : List Char) :
    fillHexM ("style=\"fill:#aaa\"".toList ++ t) =
      some ("style=\"fill:#aaa\"".toList, t) := rfl

theorem fillHexM_hit_long (t : List Char) :
    fillHexM ("style=\"fill:#aaaaaa\"".toList ++ t) =
      some ("style=\"fill:#aaaaaa\"".toList, t) := rfl

/-- The element prefix shared by a glyph line before its fill attribute. -/
def gPre : List Char := "<path d=\"m0 0h8v16h-8z\" ".toList

/-- The original flat-gray fill attribute of a glyph, by shorthand kind. -/
def fillSeg : GlyphKind → List Char
  | .short => "style=\"fill:#aaa\"".toList
  | .long => "style=\"fill:#aaaaaa\"".toList

theorem glyph_decomp (g : GlyphKind) :
    glyphLineB g = gPre ++ (fillSeg g ++ "/>".toList) := by
  cases g <;> decide

theorem fillHexM_hit (g : GlyphKind) (t : List Char) :
    fillHexM (fillSeg g ++ t) = some (fillSeg g, t) := by
  cases g
  · exact fillHexM_hit_short t
  · exact fillHexM_hit_long t

theorem fillSeg_ne_nil (g : GlyphKind) : fillSeg g ≠ [] := by
  cases g <;> decide

/-- Body lines kept by pass 1: glyph lines stay, background rects go. -/
def keptLine : RawLine → Option (List Char)
  | .bg => none
  | .glyph g => some (glyphLineB g)

/-- The body after pass 1, fills not yet rewritten. -/
def keptChunk (body : List RawLine) : List Char :=
  ((body.filterMap keptLine).map (fun b => b ++ ['\n'])).flatten

theorem bodyChunk_cons (ln : RawLine) (rest : List RawLine) :
    bodyChunk (ln :: rest) = (rawBody ln ++ ['\n']) ++ bodyChunk rest := by
  unfold bodyChunk
  simp

theorem keptChunk_bg (rest : List RawLine) :
    keptChunk (.bg :: rest) = keptChunk rest := rfl

theorem keptChunk_glyph (g : GlyphKind) (rest : List RawLine) :
    keptChunk (.glyph g :: rest) = (glyphLineB g ++ ['\n']) ++ keptChunk rest := by
  unfold keptChunk keptLine
  simp

theorem outBody_bg (rest : List RawLine) :
    outBody (.bg :: rest) = outBody rest := rfl

theorem outBody_glyph (g : GlyphKind) (rest : List RawLine) :
    outBody (.glyph g :: rest) = (glyphR ++ ['\n']) ++ outBody rest := by
  unfold outBody rewriteLine
  simp

theorem reSub_hit_append {m : List Char → Option (List Char × List Char)}
    {r : List Char → List Char} {pre rest mat : List Char}
    (h : m (pre ++ rest) = some (mat, rest)) (hpre : pre ≠ []) :
    reSub m r (pre ++ rest) = r mat ++ reSub m r rest := by
  apply reSub_hit h
  rw [List.length_append]
  have hl := List.length_pos.mpr hpre
  omega

/-- A final chunk that the scanner crosses without a match even with
nothing after it. -/
theorem reSub_tail_none {m : List Char → Option (List Char × List Char)}
    {r : List Char → List Char} {seg : List Char}
    (H : allSuffix (fun s => (m s).isNone) seg = true) :
    reSub m r seg = seg := by
  have h : reSub m r (seg ++ []) = seg ++ reSub m r [] := reSub_seg seg [] (fun s hne hs => by
    have h2 : (m s).isNone = true := allSuffix_spec H s hne hs
    rw [Option.isNone_iff_eq_none] at h2
    simpa using h2)
  have hz : reSub m r [] = [] := reSub_nil m r
  rw [List.append_nil, hz, List.append_nil] at h
  exact h

theorem svgTagB_ne_nil (wds : Option (List Char)) : svgTagB wds ≠ [] := by
  cases wds with
  | none => decide
  | some ds =>
    rw [svgTagB_some]
    intro hcon
    have hlen := congrArg List.length hcon
    rw [List.length_append, List.length_append, List.length_nil] at hlen
    have h1 : ("<svg width=\"".toList : List Char).length = 12 := by decide
    rw [h1] at hlen
    omega

theorem lgOpenTag_ne_nil (w : Nat) : lgOpenTag w ≠ [] := by
  unfold lgOpenTag
  intro hcon
  have hlen := congrArg List.length hcon
  rw [List.length_append, List.length_append, List.length_nil] at hlen
  have h1 : 1 ≤ lgTagPre.length := by decide
  omega

/-- No match of M starts inside the opening tag (plus its newline) when
its literal head cannot occur there. -/
theorem segNone_svgTag {α : Type} (lit : List Char) (hc : Char)
    (hh : lit.head? = some hc) (hd : hc.isDigit = false)
    {M : List Char → Option α}
    (hM : ∀ s t, lpre lit s = false → lpre s lit = false → M (s ++ t) = none)
    (hpre : allSuffix (failExtB lit) ("<svg width=\"".toList) = true)
    (hpost : allSuffix (failExtB lit) (svgWTail ++ ['\n']) = true)
    (hnone : allSuffix (failExtB lit) (svgTagB none ++ ['\n']) = true)
    (wds : Option (List Char)) (hwf : WFW wds) :
    SegNone M (svgTagB wds ++ ['\n']) := by
  cases wds with
  | none => exact segNone_of_allSuffix lit hM _ hnone
  | some ds =>
    obtain ⟨-, hds⟩ := hwf
    rw [svgTagB_some, List.append_assoc, List.append_assoc]
    exact SegNone.append (segNone_of_allSuffix lit hM _ hpre)
      (SegNone.append (segNone_digits lit hc hh hd hM hds)
        (segNone_of_allSuffix lit hM _ hpost))

/-- No match of M starts inside the injected gradient definition when its
literal head cannot occur there. -/
theorem segNone_gdef {α : Type} (lit : List Char) (hc : Char)
    (hh : lit.head? = some hc) (hd : hc.isDigit = false)
    {M : List Char → Option α}
    (hM : ∀ s t, lpre lit s = false → lpre s lit = false → M (s ++ t) = none)
    (hA : allSuffix (failExtB lit) gdefA = true)
    (hP : allSuffix (failExtB lit) lgTagPre = true)
    (hQ : allSuffix (failExtB lit) (lgTagPost ++ gdefZ) = true)
    (w : Nat) :
    SegNone M (gradientDef "headerGradient" w SWEET_DRACULA) := by
  rw [gradientDef_decomp]
  exact SegNone.append (segNone_of_allSuffix lit hM _ hA)
    (SegNone.append (segNone_of_allSuffix lit hM _ hP)
      (SegNone.append (segNone_digits lit hc hh hd hM (natDigs_digits w))
        (segNone_of_allSuffix lit hM _ hQ)))

theorem segNone_keptChunk {α : Type} {M : List Char → Option α}
    (h1 : SegNone M (glyphLineB .short ++ ['\n']))
    (h2 : SegNone M (glyphLineB .long ++ ['\n']))
    (body : List RawLine) : SegNone M (keptChunk body) := by
  induction body with
  | nil =>
    intro s hne hs
    rw [show keptChunk [] = [] from rfl] at hs
    exact absurd (List.suffix_nil.mp hs) hne
  | cons ln rest ih =>
    cases ln with
    | bg =>
      rw [keptChunk_bg]
      exact ih
    | glyph g =>
      rw [keptChunk_glyph]
      cases g
      · exact SegNone.append h1 ih
      · exact SegNone.append h2 ih

theorem segNone_outBody {α : Type} {M : List Char → Option α}
    (h1 : SegNone M (glyphR ++ ['\n'])) (body : List RawLine) :
    SegNone M (outBody body) := by
  induction body with
  | nil =>
    intro s hne hs
    rw [show outBody [] = [] from rfl] at hs
    exact absurd (List.suffix_nil.mp hs) hne
  | cons ln rest ih =>
    cases ln with
    | bg =>
      rw [outBody_bg]
      exact ih
    | glyph g =>
      rw [outBody_glyph]
      exact SegNone.append h1 ih

theorem segNone_nl3_svgTag (wds : Option (List Char)) (hwf : WFW wds) :
    SegNone nl3M (svgTagB wds) := by
  cases wds with
  | none => exact segNone_nl3_of_allSuffix (by decide)
  | some ds =>
    obtain ⟨-, hds⟩ := hwf
    rw [svgTagB_some, List.append_assoc]
    exact SegNone.append (segNone_nl3_of_allSuffix (by decide))
      (SegNone.append (segNone_nl3_digits hds) (segNone_nl3_of_allSuffix (by decide)))

/-- A final chunk that the counter crosses without a match even with
nothing after it. -/
theorem countSub_fin {pat seg : List Char}
    (hseg : allSuffix (failExtB pat) seg = true) : countSub pat seg = 0 := by
  have h := countSub_seg seg [] hseg
  rw [List.append_nil] at h
  rw [h]
  rfl

/-- The document after pass 1: background rect lines removed. -/
def doc1 (wds : Option (List Char)) (body : List RawLine) : List Char :=
  svgTagB wds ++ '\n' :: (keptChunk body ++ "</svg>\n".toList)

/-- After pass 2: gradient definition injected after the opening tag. -/
def doc2 (wds : Option (List Char)) (w : Nat) (body : List RawLine) : List Char :=
  (svgTagB wds ++ '\n' :: gradientDef "headerGradient" w SWEET_DRACULA) ++
    '\n' :: (keptChunk body ++ "</svg>\n".toList)

/-- After pass 3, and unchanged by passes 4 and 5: fills redirected. -/
def doc3 (wds : Option (List Char)) (w : Nat) (body : List RawLine) : List Char :=
  (svgTagB wds ++ '\n' :: gradientDef "headerGradient" w SWEET_DRACULA) ++
    '\n' :: (outBody body ++ "</svg>\n".toList)

theorem pass1_chunk (body : List RawLine) (t : List Char) :
    reSub bgRectM (fun _ => []) (bodyChunk body ++ t) =
      keptChunk body ++ reSub bgRectM (fun _ => []) t := by
  induction body with
  | nil =>
    rw [show bodyChunk [] = [] from rfl, show keptChunk [] = [] from rfl,
      List.nil_append, List.nil_append]
  | cons ln rest ih =>
    rw [bodyChunk_cons, List.append_assoc]
    cases ln with
    | bg =>
      rw [keptChunk_bg, show rawBody RawLine.bg = bgLineB from rfl]
      rw [reSub_hit_append (bgRectM_hit (bodyChunk rest ++ t)) (by simp)]
      simp only [List.nil_append]
      exact ih
    | glyph g =>
      have hseg : SegNone bgRectM (glyphLineB g ++ ['\n']) := by
        cases g with
        | short =>
          exact segNone_of_allSuffix rectLit
            (fun s t h1 h2 => bgRectM_none_ext h1 h2 t) _ (by decide)
        | long =>
          exact segNone_of_allSuffix rectLit
            (fun s t h1 h2 => bgRectM_none_ext h1 h2 t) _ (by decide)
      rw [keptChunk_glyph, show rawBody (RawLine.glyph g) = glyphLineB g from rfl]
      rw [reSub_segNone hseg, ih]
      simp [List.append_assoc]

theorem pass1_doc (wds : Option (List Char)) (body : List RawLine) (hwf : WFW wds) :
    pass1 (renderDoc wds body) = doc1 wds body := by
  unfold pass1 renderDoc doc1
  rw [show svgTagB wds ++ '\n' :: (bodyChunk body ++ ("</svg>\n".toList : List Char)) =
    (svgTagB wds ++ ['\n']) ++ (bodyChunk body ++ "</svg>\n".toList) from by simp]
  rw [reSub_segNone (segNone_svgTag rectLit '<' (by decide) (by decide)
    (fun s t h1 h2 => bgRectM_none_ext h1 h2 t) (by decide) (by decide) (by decide)
    wds hwf)]
  rw [pass1_chunk, reSub_tail_none (by decide)]
  simp

theorem pass2_doc (wds : Option (List Char)) (w : Nat) (body : List RawLine)
    (hwf : WFW wds) :
    pass2 "headerGradient" w SWEET_DRACULA (doc1 wds body) = doc2 wds w body := by
  have hhit : svgTagM (svgTagB wds ++ '\n' :: (keptChunk body ++ "</svg>\n".toList)) =
      some (svgTagB wds, '\n' :: (keptChunk body ++ "</svg>\n".toList)) := by
    cases wds with
    | none => exact svgTagM_hit_none _
    | some ds =>
      obtain ⟨-, hds⟩ := hwf
      exact svgTagM_hit_some ds _ hds
  have hnl : SegNone svgTagM ['\n'] :=
    segNone_of_allSuffix svgLit (fun s t h1 h2 => svgTagM_none_ext h1 h2 t) _ (by decide)
  have hks : SegNone svgTagM (keptChunk body) :=
    segNone_keptChunk
      (segNone_of_allSuffix svgLit (fun s t h1 h2 => svgTagM_none_ext h1 h2 t) _
        (by decide))
      (segNone_of_allSuffix svgLit (fun s t h1 h2 => svgTagM_none_ext h1 h2 t) _
        (by decide))
      body
  unfold pass2 doc1 doc2
  rw [reSub_hit_append hhit (svgTagB_ne_nil wds)]
  rw [show ('\n' :: (keptChunk body ++ ("</svg>\n".toList : List Char))) =
    ['\n'] ++ (keptChunk body ++ "</svg>\n".toList) from rfl]
  rw [reSub_segNone hnl, reSub_segNone hks, reSub_tail_none (by decide)]

theorem pass3_chunk (body : List RawLine) (t : List Char) :
    reSub fillHexM (fun _ => fillUrl "headerGradient") (keptChunk body ++ t) =
      outBody body ++ reSub fillHexM (fun _ => fillUrl "headerGradient") t := by
  have hgp : SegNone fillHexM gPre :=
    segNone_of_allSuffix fillLit (fun s t h1 h2 => fillHexM_none_ext h1 h2 t) _
      (by decide)
  have hend : SegNone fillHexM ("/>".toList ++ ['\n']) :=
    segNone_of_allSuffix fillLit (fun s t h1 h2 => fillHexM_none_ext h1 h2 t) _
      (by decide)
  induction body with
  | nil =>
    rw [show keptChunk [] = [] from rfl, show outBody [] = [] from rfl,
      List.nil_append, List.nil_append]
  | cons ln rest ih =>
    cases ln with
    | bg =>
      rw [keptChunk_bg, outBody_bg]
      exact ih
    | glyph g =>
      rw [keptChunk_glyph, outBody_glyph, List.append_assoc]
      rw [show (glyphLineB g ++ ['\n']) ++ (keptChunk rest ++ t) =
        gPre ++ (fillSeg g ++ (("/>".toList ++ ['\n']) ++ (keptChunk rest ++ t)))
        from by rw [glyph_decomp g]; simp [List.append_assoc]]
      rw [reSub_segNone hgp, reSub_hit_append (fillHexM_hit g _) (fillSeg_ne_nil g),
        reSub_segNone hend, ih]
      simp [glyphR, gPre, List.append_assoc]

set_option maxRecDepth 4000 in
theorem pass3_doc (wds : Option (List Char)) (w : Nat) (body : List RawLine)
    (hwf : WFW wds) :
    pass3 "headerGradient" (doc2 wds w body) = doc3 wds w body := by
  unfold pass3 doc2 doc3
  rw [show (svgTagB wds ++ '\n' :: gradientDef "headerGradient" w SWEET_DRACULA) ++
      '\n' :: (keptChunk body ++ ("</svg>\n".toList : List Char)) =
    (svgTagB wds ++ ['\n']) ++ (gradientDef "headerGradient" w SWEET_DRACULA ++
      (['\n'] ++ (keptChunk body ++ "</svg>\n".toList))) from by
      simp [List.append_assoc]]
  rw [reSub_segNone (segNone_svgTag fillLit 's' (by decide) (by decide)
        (fun s t h1 h2 => fillHexM_none_ext h1 h2 t) (by decide) (by decide) (by decide)
        wds hwf),
      reSub_segNone (segNone_gdef fillLit 's' (by decide) (by decide)
        (fun s t h1 h2 => fillHexM_none_ext h1 h2 t) (by decide) (by decide) (by decide)
        w),
      reSub_segNone (segNone_of_allSuffix fillLit
        (fun s t h1 h2 => fillHexM_none_ext h1 h2 t) ['\n'] (by decide)),
      pass3_chunk, reSub_tail_none (by decide)]
  simp [List.append_assoc]

set_option maxRecDepth 4000 in
theorem pass4_doc (wds : Option (List Char)) (w : Nat) (body : List RawLine)
    (hwf : WFW wds) :
    pass4 (doc3 wds w body) = doc3 wds w body := by
  unfold pass4 doc3
  rw [show (svgTagB wds ++ '\n' :: gradientDef "headerGradient" w SWEET_DRACULA) ++
      '\n' :: (outBody body ++ ("</svg>\n".toList : List Char)) =
    (svgTagB wds ++ ['\n']) ++ (gradientDef "headerGradient" w SWEET_DRACULA ++
      (['\n'] ++ (outBody body ++ "</svg>\n".toList))) from by
      simp [List.append_assoc]]
  rw [reSub_segNone (segNone_svgTag rectLit '<' (by decide) (by decide)
        (fun s t h1 h2 => backdropM_none_ext h1 h2 t) (by decide) (by decide) (by decide)
        wds hwf),
      reSub_segNone (segNone_gdef rectLit '<' (by decide) (by decide)
        (fun s t h1 h2 => backdropM_none_ext h1 h2 t) (by decide) (by decide) (by decide)
        w),
      reSub_segNone (segNone_of_allSuffix rectLit
        (fun s t h1 h2 => backdropM_none_ext h1 h2 t) ['\n'] (by decide)),
      reSub_segNone (segNone_outBody (segNone_of_allSuffix rectLit
        (fun s t h1 h2 => backdropM_none_ext h1 h2 t) _ (by decide)) body),
      reSub_tail_none (by decide)]

theorem pass5_tail (body : List RawLine) :
    reSub nl3M (fun _ => ['\n', '\n']) ('\n' :: (outBody body ++ "</svg>\n".toList)) =
      '\n' :: (outBody body ++ "</svg>\n".toList) := by
  induction body with
  | nil =>
    rw [show outBody [] = [] from rfl, List.nil_append]
    exact reSub_tail_none (by decide)
  | cons ln rest ih =>
    cases ln with
    | bg =>
      rw [outBody_bg]
      exact ih
    | glyph g =>
      rw [outBody_glyph]
      rw [show '\n' :: (((glyphR ++ ['\n']) ++ outBody rest) ++
          ("</svg>\n".toList : List Char)) =
        ('\n' :: glyphR) ++ ('\n' :: (outBody rest ++ "</svg>\n".toList)) from by
          simp [List.append_assoc]]
      rw [reSub_segNone (segNone_nl3_of_allSuffix (by decide)), ih]

set_option maxRecDepth 4000 in
theorem pass5_doc (wds : Option (List Char)) (w : Nat) (body : List RawLine)
    (hwf : WFW wds) :
    pass5 (doc3 wds w body) = doc3 wds w body := by
  unfold pass5 doc3
  rw [gradientDef_decomp]
  rw [show (svgTagB wds ++ '\n' :: (gdefA ++ (lgTagPre ++ (natDigs w ++
      (lgTagPost ++ gdefZ))))) ++
      '\n' :: (outBody body ++ ("</svg>\n".toList : List Char)) =
    svgTagB wds ++ (('\n' :: gdefA) ++ (lgTagPre ++ (natDigs w ++
      ((lgTagPost ++ gdefZ) ++ ('\n' :: (outBody body ++ "</svg>\n".toList))))))
    from by simp [List.append_assoc]]
  rw [reSub_segNone (segNone_nl3_svgTag wds hwf),
      reSub_segNone (segNone_nl3_of_allSuffix (by decide)),
      reSub_segNone (segNone_nl3_of_allSuffix (by decide)),
      reSub_segNone (segNone_nl3_digits (natDigs_digits w)),
      reSub_segNone (segNone_nl3_of_allSuffix (by decide)),
      pass5_tail body]

/-- The whole rewriter on an expected-shape document. -/
theorem transform_doc (wds : Option (List Char)) (body : List RawLine)
    (hwf : WFW wds) :
    transform_svg (String.mk (renderDoc wds body)) "headerGradient" SWEET_DRACULA =
      String.mk (doc3 wds (docWidth wds) body) := by
  unfold transform_svg
  rw [show (String.mk (renderDoc wds body)).toList = renderDoc wds body from rfl]
  rw [extract_width wds body hwf]
  rw [pass1_doc wds body hwf, pass2_doc wds (docWidth wds) body hwf,
    pass3_doc wds (docWidth wds) body hwf, pass4_doc wds (docWidth wds) body hwf,
    pass5_doc wds (docWidth wds) body hwf]

theorem countSub_outBody {pat : List Char}
    (hg : allSuffix (failExtB pat) (glyphR ++ ['\n']) = true)
    (body : List RawLine) (t : List Char) :
    countSub pat (outBody body ++ t) = countSub pat t := by
  induction body with
  | nil => rw [show outBody [] = [] from rfl, List.nil_append]
  | cons ln rest ih =>
    cases ln with
    | bg =>
      rw [outBody_bg]
      exact ih
    | glyph g =>
      rw [outBody_glyph, List.append_assoc, countSub_seg _ _ hg]
      exact ih

/-- In the rewriter's output, a pattern whose head is a non-digit that
cannot match inside any fixed segment occurs exactly as often as in the
injected linearGradient opening-tag prefix. -/
theorem countSub_doc3 (wds : Option (List Char)) (w : Nat) (body : List RawLine)
    (hwf : WFW wds) (pat : List Char) (hc : Char)
    (hh : pat.head? = some hc) (hd : hc.isDigit = false)
    (h1 : allSuffix (failExtB pat) ("<svg width=\"".toList) = true)
    (h2 : allSuffix (failExtB pat) svgWTail = true)
    (h3 : allSuffix (failExtB pat) (svgTagB none) = true)
    (h4 : allSuffix (failExtB pat) ('\n' :: gdefA) = true)
    (h5 : allSuffix (countOkB pat) lgTagPre = true)
    (h6 : allSuffix (failExtB pat) (lgTagPost ++ gdefZ) = true)
    (h7 : allSuffix (failExtB pat) (glyphR ++ ['\n']) = true)
    (h8 : allSuffix (failExtB pat) ['\n'] = true)
    (h9 : allSuffix (failExtB pat) ("</svg>\n".toList) = true) :
    countSub pat (doc3 wds w body) = countSub pat lgTagPre := by
  have hsvg : ∀ t : List Char, countSub pat (svgTagB wds ++ t) = countSub pat t := by
    intro t
    cases wds with
    | none => exact countSub_seg _ t h3
    | some ds =>
      obtain ⟨-, hds⟩ := hwf
      rw [svgTagB_some, List.append_assoc, List.append_assoc,
        countSub_seg _ _ h1, countSub_digits hh hd hds, countSub_seg _ _ h2]
  unfold doc3
  rw [gradientDef_decomp]
  rw [show (svgTagB wds ++ '\n' :: (gdefA ++ (lgTagPre ++ (natDigs w ++
      (lgTagPost ++ gdefZ))))) ++
      '\n' :: (outBody body ++ ("</svg>\n".toList : List Char)) =
    svgTagB wds ++ (('\n' :: gdefA) ++ (lgTagPre ++ (natDigs w ++
      ((lgTagPost ++ gdefZ) ++ (['\n'] ++ (outBody body ++ "</svg>\n".toList))))))
    from by simp [List.append_assoc]]
  rw [hsvg, countSub_seg _ _ h4, countSub_chunk lgTagPre _ h5,
    countSub_digits hh hd (natDigs_digits w), countSub_seg _ _ h6,
    countSub_seg _ _ h8, countSub_outBody h7, countSub_fin h9]
  omega

set_option maxRecDepth 4000 in
/-- C9: for every engine native-export document of the expected shape
(opening svg tag with an optional decimal width attribute, then
background-rect and flat-gray glyph lines using the 3- or 6-digit hex
shorthand, then the closing tag), the rewriter transform_svg produces
output containing exactly one linearGradient definition, whose opening
tag carries gradientUnits="userSpaceOnUse" (absolute document space)
with axis x1=0 to x2=the extracted document width (the fixed default 100
when no width attribute is present), zero remaining opaque background
fills style="fill:#000", and zero remaining flat-gray fill references
style="fill:#aaa..." of either shorthand. -/
theorem svg_rewrite_spec (wds : Option (List Char)) (body : List RawLine)
    (hwf : WFW wds) :
    countSub ("<linearGradient".toList)
      (transform_svg (String.mk (renderDoc wds body)) "headerGradient"
        SWEET_DRACULA).toList = 1 ∧
    countSub (lgOpenTag (docWidth wds))
      (transform_svg (String.mk (renderDoc wds body)) "headerGradient"
        SWEET_DRACULA).toList = 1 ∧
    countSub bgStyleLit
      (transform_svg (String.mk (renderDoc wds body)) "headerGradient"
        SWEET_DRACULA).toList = 0 ∧
    countSub ("style=\"fill:#aaa".toList)
      (transform_svg (String.mk (renderDoc wds body)) "headerGradient"
        SWEET_DRACULA).toList = 0 := by
  have htr : (transform_svg (String.mk (renderDoc wds body)) "headerGradient"
      SWEET_DRACULA).toList = doc3 wds (docWidth wds) body := by
    rw [transform_doc wds body hwf]
    rfl
  rw [htr]
  have hlin : countSub ("<linearGradient".toList) (doc3 wds (docWidth wds) body) = 1 := by
    rw [countSub_doc3 wds (docWidth wds) body hwf ("<linearGradient".toList) '<'
      (by decide) (by decide) (by decide) (by decide) (by decide) (by decide)
      (by decide) (by decide) (by decide) (by decide) (by decide)]
    decide
  refine ⟨hlin, ?_, ?_, ?_⟩
  · have hup : countSub (lgOpenTag (docWidth wds)) (doc3 wds (docWidth wds) body) ≤ 1 := by
      have hdec : lgOpenTag (docWidth wds) = "<linearGradient".toList ++
          (" id=\"headerGradient\" x1=\"0\" y1=\"0\" x2=\"".toList ++
            (natDigs (docWidth wds) ++ lgTagPost)) := by
        unfold lgOpenTag
        rw [show lgTagPre = "<linearGradient".toList ++
          " id=\"headerGradient\" x1=\"0\" y1=\"0\" x2=\"".toList from by decide]
        simp [List.append_assoc]
      rw [hdec]
      calc countSub ("<linearGradient".toList ++
            (" id=\"headerGradient\" x1=\"0\" y1=\"0\" x2=\"".toList ++
              (natDigs (docWidth wds) ++ lgTagPost)))
            (doc3 wds (docWidth wds) body)
          ≤ countSub ("<linearGradient".toList) (doc3 wds (docWidth wds) body) :=
            countSub_le_of_append _ _ _
        _ = 1 := hlin
    have hlo : 1 ≤ countSub (lgOpenTag (docWidth wds)) (doc3 wds (docWidth wds) body) := by
      have hshape : doc3 wds (docWidth wds) body =
          (svgTagB wds ++ '\n' :: gdefA) ++ lgOpenTag (docWidth wds) ++
            (gdefZ ++ '\n' :: (outBody body ++ "</svg>\n".toList)) := by
        unfold doc3 lgOpenTag
        rw [gradientDef_decomp]
        simp [List.append_assoc]
      rw [hshape]
      exact countSub_pos (lgOpenTag_ne_nil (docWidth wds)) _ _
    omega
  · rw [countSub_doc3 wds (docWidth wds) body hwf bgStyleLit 's'
      (by decide) (by decide) (by decide) (by decide) (by decide) (by decide)
      (by decide) (by decide) (by decide) (by decide) (by decide)]
    decide
  · rw [countSub_doc3 wds (docWidth wds) body hwf ("style=\"fill:#aaa".toList) 's'
      (by decide) (by decide) (by decide) (by decide) (by decide) (by decide)
      (by decide) (by decide) (by decide) (by decide) (by decide)]
    decide

theorem svg_rewrite_spec_witness :
    WFW (some ['9', '6']) ∧
    (countSub ("<linearGradient".toList)
      (transform_svg (String.mk (renderDoc (some ['9', '6'])
        [.bg, .glyph .short, .glyph .long])) "headerGradient"
        SWEET_DRACULA).toList = 1 ∧
    countSub (lgOpenTag (docWidth (some ['9', '6'])))
      (transform_svg (String.mk (renderDoc (some ['9', '6'])
        [.bg, .glyph .short, .glyph .long])) "headerGradient"
        SWEET_DRACULA).toList = 1 ∧
    countSub bgStyleLit
      (transform_svg (String.mk (renderDoc (some ['9', '6'])
        [.bg, .glyph .short, .glyph .long])) "headerGradient"
        SWEET_DRACULA).toList = 0 ∧
    countSub ("style=\"fill:#aaa".toList)
      (transform_svg (String.mk (renderDoc (some ['9', '6'])
        [.bg, .glyph .short, .glyph .long])) "headerGradient"
        SWEET_DRACULA).toList = 0) :=
  ⟨⟨by decide, by decide⟩,
    svg_rewrite_spec (some ['9', '6']) [.bg, .glyph .short, .glyph .long]
      ⟨by decide, by decide⟩⟩

end SvgGen
